import Mathlib

/-!
# mqtt-shell: the encrypted command and response protocol

A shallow embedding of the Go sources of mqtt-shell (server/crypto.go,
server/main.go, client/main.go) and the properties of its specification.

* Byte slices are lists of octets, and so is the line the client reads from
  standard input: a range loop over it is modelled with Go's UTF-8 decoding,
  in which a byte that is not part of a well-formed sequence yields U+FFFD.
  Go strings that hold text (topics, messages, the arguments that WriteRune
  builds) are Lean strings; their bytes are their UTF-8 encoding.
* The library functions the sources call are modelled by executable
  definitions: utf8.DecodeRuneInString, strings.TrimSpace,
  base64.StdEncoding, sha256.Sum256, aes.NewCipher and cipher.NewGCM with
  Seal and Open.
* What the outside world decides (the random source, the clock, the JSON
  codec, the subprocess run) is passed in; what a handler does to the outside
  world (subscribe, publish, run a subprocess) is returned as a list of events.
-/

set_option linter.dupNamespace false

/-- An octet. -/
abbrev Byte := Fin 256

/-! ## unicode/utf8 -/

namespace utf8

/-- Constant utf8.RuneError, the replacement character U+FFFD. -/
def RuneError : Char := Char.ofNat 0xFFFD

/-- Go's conversion byte(x) of an integer. -/
def byte (x : Nat) : Byte := Fin.ofNat x

/-- Function utf8.AppendRune on an empty slice: the UTF-8 encoding of the
rune; a surrogate or a value above U+10FFFF is written as U+FFFD. -/
def EncodeRune (r : Nat) : List Byte :=
  if r ≤ 0x7F then [byte r]
  else if r ≤ 0x7FF then [byte (0xC0 ||| (r >>> 6)), byte (0x80 ||| (r &&& 0x3F))]
  else if r > 0x10FFFF ∨ (0xD800 ≤ r ∧ r ≤ 0xDFFF) then [0xEF, 0xBF, 0xBD]
  else if r ≤ 0xFFFF then
    [byte (0xE0 ||| (r >>> 12)), byte (0x80 ||| (r >>> 6 &&& 0x3F)),
      byte (0x80 ||| (r &&& 0x3F))]
  else
    [byte (0xF0 ||| (r >>> 18)), byte (0x80 ||| (r >>> 12 &&& 0x3F)),
      byte (0x80 ||| (r >>> 6 &&& 0x3F)), byte (0x80 ||| (r &&& 0x3F))]

/-- The table first with acceptRanges: for a leading byte, the length of
the sequence and the range the second byte must lie in; none for a byte
that starts no sequence. -/
def first (p0 : Nat) : Option (Nat × Nat × Nat) :=
  if 0xC2 ≤ p0 ∧ p0 ≤ 0xDF then some (2, 0x80, 0xBF)
  else if p0 = 0xE0 then some (3, 0xA0, 0xBF)
  else if 0xE1 ≤ p0 ∧ p0 ≤ 0xEC then some (3, 0x80, 0xBF)
  else if p0 = 0xED then some (3, 0x80, 0x9F)
  else if 0xEE ≤ p0 ∧ p0 ≤ 0xEF then some (3, 0x80, 0xBF)
  else if p0 = 0xF0 then some (4, 0x90, 0xBF)
  else if 0xF1 ≤ p0 ∧ p0 ≤ 0xF3 then some (4, 0x80, 0xBF)
  else if p0 = 0xF4 then some (4, 0x80, 0x8F)
  else none

/-- Function utf8.DecodeRuneInString: the first rune of the bytes and its
width; (RuneError, 0) for no bytes, (RuneError, 1) for an invalid
encoding. -/
def DecodeRune (p : List Byte) : Char × Nat :=
  match p with
  | [] => (RuneError, 0)
  | b :: rest =>
    let p0 := b.val
    if p0 < 0x80 then (Char.ofNat p0, 1)
    else
      match first p0 with
      | none => (RuneError, 1)
      | some (sz, lo, hi) =>
        if rest.length + 1 < sz then (RuneError, 1)
        else
          let b1 := (rest.getD 0 0).val
          if b1 < lo ∨ hi < b1 then (RuneError, 1)
          else if sz ≤ 2 then (Char.ofNat ((p0 &&& 0x1F) <<< 6 ||| (b1 &&& 0x3F)), 2)
          else
            let b2 := (rest.getD 1 0).val
            if b2 < 0x80 ∨ 0xBF < b2 then (RuneError, 1)
            else if sz ≤ 3 then
              (Char.ofNat ((p0 &&& 0x0F) <<< 12 ||| (b1 &&& 0x3F) <<< 6 ||| (b2 &&& 0x3F)), 3)
            else
              let b3 := (rest.getD 2 0).val
              if b3 < 0x80 ∨ 0xBF < b3 then (RuneError, 1)
              else
                (Char.ofNat ((p0 &&& 0x07) <<< 18 ||| (b1 &&& 0x3F) <<< 12 |||
                  (b2 &&& 0x3F) <<< 6 ||| (b3 &&& 0x3F)), 4)

/-- Function utf8.RuneStart: the byte is not a continuation byte. -/
def RuneStart (b : Byte) : Bool := b.val &&& 0xC0 ≠ 0x80

/-- Function utf8.DecodeLastRuneInString: the last rune of the bytes and
its width, found by stepping back at most four bytes to a byte that can
start a rune. -/
def DecodeLastRune (p : List Byte) : Char × Nat :=
  let e := p.length
  if e = 0 then (RuneError, 0)
  else
    let r := (p.getD (e - 1) 0).val
    if r < 0x80 then (Char.ofNat r, 1)
    else
      let start :=
        if 2 ≤ e ∧ RuneStart (p.getD (e - 2) 0) then e - 2
        else if 3 ≤ e ∧ RuneStart (p.getD (e - 3) 0) then e - 3
        else if 4 ≤ e ∧ RuneStart (p.getD (e - 4) 0) then e - 4
        else e - 5
      let (r, size) := DecodeRune (p.drop start)
      if start + size ≠ e then (RuneError, 1) else (r, size)

end utf8

/-- Go's conversion of text to a string, that is to its bytes: the UTF-8
encodings of its characters. -/
def stringBytes (s : String) : List Byte :=
  s.data.flatMap (fun c => utf8.EncodeRune c.toNat)

/-- The runes a range loop over a string yields: the next rune is decoded
where the last one ended, an invalid byte gives U+FFFD and is stepped over
alone. The first argument counts the bytes of the current rune still to
be passed. -/
def rangeFrom : Nat → List Byte → List Char
  | _, [] => []
  | 0, b :: rest =>
    (utf8.DecodeRune (b :: rest)).1 :: rangeFrom ((utf8.DecodeRune (b :: rest)).2 - 1) rest
  | k + 1, _ :: rest => rangeFrom k rest

/-- The runes of for _, char := range s. -/
def rangeRunes (s : List Byte) : List Char := rangeFrom 0 s

/-! ## encoding/base64 -/

namespace base64

/-- The alphabet of base64.StdEncoding. -/
def encodeStd : String :=
  "ABCDEFGHIJKLMNOPQRSTUVWXYZabcdefghijklmnopqrstuvwxyz0123456789+/"

/-- The padding character of StdEncoding, the equals sign. -/
def StdPadding : Byte := 61

/-- The table enc.encode: the alphabet character of a six-bit value. -/
def encode (v : Nat) : Byte :=
  Fin.ofNat ((encodeStd.data.getD (v % 64) 'A').toNat)

/-- The table enc.decodeMap: the six-bit value of an alphabet character,
none standing for the entry 0xFF. -/
def decodeMap (c : Byte) : Option Nat :=
  let i := encodeStd.data.indexOf (Char.ofNat c.val)
  if i < 64 then some i else none

/-- StdEncoding.EncodeToString: three bytes become four characters, the
remainder is padded. -/
def EncodeToString : List Byte → List Byte
  | a :: b :: c :: rest =>
    let val := a.val <<< 16 ||| b.val <<< 8 ||| c.val
    encode (val >>> 18 &&& 0x3F) :: encode (val >>> 12 &&& 0x3F) ::
      encode (val >>> 6 &&& 0x3F) :: encode (val &&& 0x3F) :: EncodeToString rest
  | [a, b] =>
    let val := a.val <<< 16 ||| b.val <<< 8
    [encode (val >>> 18 &&& 0x3F), encode (val >>> 12 &&& 0x3F),
      encode (val >>> 6 &&& 0x3F), StdPadding]
  | [a] =>
    let val := a.val <<< 16
    [encode (val >>> 18 &&& 0x3F), encode (val >>> 12 &&& 0x3F), StdPadding, StdPadding]
  | [] => []

/-- Whether a byte is one of the line-break characters the decoder skips. -/
def isNewline (c : Byte) : Bool := c.val = 10 ∨ c.val = 13

/-- The bytes of a quantum: dbuf holds the six-bit values read (missing ones
are zero), dlen how many were read; dlen - 1 bytes come out. -/
def quantumBytes (dbuf : List Nat) : List Byte :=
  let val := dbuf.getD 0 0 <<< 18 ||| dbuf.getD 1 0 <<< 12 ||| dbuf.getD 2 0 <<< 6 ||| dbuf.getD 3 0
  ([Fin.ofNat (val >>> 16), Fin.ofNat (val >>> 8), Fin.ofNat val] : List Byte).take (dbuf.length - 1)

/-- The decoding loop of StdEncoding: decodeQuantum run until the input is
used up. dbuf is the quantum being read. A failure is CorruptInputError. -/
def decodeLoop : List Byte → List Nat → Option (List Byte)
  | [], dbuf => if dbuf.length = 0 then some [] else none
  | c :: rest, dbuf =>
    match decodeMap c with
    | some out =>
      if dbuf.length = 3 then
        (decodeLoop rest []).map (fun tl => quantumBytes (dbuf ++ [out]) ++ tl)
      else decodeLoop rest (dbuf ++ [out])
    | none =>
      if isNewline c then decodeLoop rest dbuf
      else if c ≠ StdPadding then none
      else if dbuf.length < 2 then none
      else
        let rest1 := rest.dropWhile isNewline
        if dbuf.length = 2 then
          match rest1 with
          | [] => none
          | p :: rest2 =>
            if p ≠ StdPadding then none
            else if (rest2.dropWhile isNewline).length > 0 then none
            else some (quantumBytes dbuf)
        else if rest1.length > 0 then none
        else some (quantumBytes dbuf)

/-- StdEncoding.DecodeString. -/
def DecodeString (s : List Byte) : Option (List Byte) := decodeLoop s []

end base64

/-! ## crypto/sha256 -/

namespace sha256

/-- A 32-bit word rotated right. -/
def rotr (x n : Nat) : Nat := (x >>> n ||| x <<< (32 - n)) % 2 ^ 32

/-- The round constants of SHA-256. -/
def K : List Nat :=
  [0x428a2f98, 0x71374491, 0xb5c0fbcf, 0xe9b5dba5, 0x3956c25b, 0x59f111f1, 0x923f82a4, 0xab1c5ed5,
   0xd807aa98, 0x12835b01, 0x243185be, 0x550c7dc3, 0x72be5d74, 0x80deb1fe, 0x9bdc06a7, 0xc19bf174,
   0xe49b69c1, 0xefbe4786, 0x0fc19dc6, 0x240ca1cc, 0x2de92c6f, 0x4a7484aa, 0x5cb0a9dc, 0x76f988da,
   0x983e5152, 0xa831c66d, 0xb00327c8, 0xbf597fc7, 0xc6e00bf3, 0xd5a79147, 0x06ca6351, 0x14292967,
   0x27b70a85, 0x2e1b2138, 0x4d2c6dfc, 0x53380d13, 0x650a7354, 0x766a0abb, 0x81c2c92e, 0x92722c85,
   0xa2bfe8a1, 0xa81a664b, 0xc24b8b70, 0xc76c51a3, 0xd192e819, 0xd6990624, 0xf40e3585, 0x106aa070,
   0x19a4c116, 0x1e376c08, 0x2748774c, 0x34b0bcb5, 0x391c0cb3, 0x4ed8aa4a, 0x5b9cca4f, 0x682e6ff3,
   0x748f82ee, 0x78a5636f, 0x84c87814, 0x8cc70208, 0x90befffa, 0xa4506ceb, 0xbef9a3f7, 0xc67178f2]

/-- The eight chaining words of the hash. -/
structure Digest where
  h0 : Nat
  h1 : Nat
  h2 : Nat
  h3 : Nat
  h4 : Nat
  h5 : Nat
  h6 : Nat
  h7 : Nat
deriving DecidableEq, Repr

/-- The initial hash value. -/
def init : Digest :=
  ⟨0x6a09e667, 0xbb67ae85, 0x3c6ef372, 0xa54ff53a, 0x510e527f, 0x9b05688c, 0x1f83d9ab, 0x5be0cd19⟩

/-- The four bytes of a 32-bit word, most significant first. -/
def be32 (w : Nat) : List Byte :=
  [Fin.ofNat (w >>> 24), Fin.ofNat (w >>> 16), Fin.ofNat (w >>> 8), Fin.ofNat w]

/-- The 32-bit word at byte offset i of a block, most significant byte first. -/
def word (p : List Byte) (i : Nat) : Nat :=
  (p.getD i 0).val <<< 24 ||| (p.getD (i + 1) 0).val <<< 16 |||
    (p.getD (i + 2) 0).val <<< 8 ||| (p.getD (i + 3) 0).val

/-- The message schedule of one 64-byte block: 64 words. -/
def schedule (p : List Byte) : List Nat :=
  (List.range 48).foldl
    (fun w i =>
      let v1 := w.getD (i + 14) 0
      let t1 := rotr v1 17 ^^^ rotr v1 19 ^^^ v1 >>> 10
      let v2 := w.getD (i + 1) 0
      let t2 := rotr v2 7 ^^^ rotr v2 18 ^^^ v2 >>> 3
      w ++ [(t1 + w.getD (i + 9) 0 + t2 + w.getD i 0) % 2 ^ 32])
    ((List.range 16).map (fun i => word p (4 * i)))

/-- One round of the compression function. -/
def round (s : Digest) (kw : Nat × Nat) : Digest :=
  let t1 := s.h7 + (rotr s.h4 6 ^^^ rotr s.h4 11 ^^^ rotr s.h4 25) +
    ((s.h4 &&& s.h5) ^^^ ((s.h4 ^^^ 0xffffffff) &&& s.h6)) + kw.1 + kw.2
  let t2 := (rotr s.h0 2 ^^^ rotr s.h0 13 ^^^ rotr s.h0 22) +
    ((s.h0 &&& s.h1) ^^^ (s.h0 &&& s.h2) ^^^ (s.h1 &&& s.h2))
  ⟨(t1 + t2) % 2 ^ 32, s.h0, s.h1, s.h2, (s.h3 + t1) % 2 ^ 32, s.h4, s.h5, s.h6⟩

/-- The block function: one 64-byte block folded into the chaining value. -/
def block (d : Digest) (p : List Byte) : Digest :=
  let s := (K.zip (schedule p)).foldl round d
  ⟨(d.h0 + s.h0) % 2 ^ 32, (d.h1 + s.h1) % 2 ^ 32, (d.h2 + s.h2) % 2 ^ 32,
   (d.h3 + s.h3) % 2 ^ 32, (d.h4 + s.h4) % 2 ^ 32, (d.h5 + s.h5) % 2 ^ 32,
   (d.h6 + s.h6) % 2 ^ 32, (d.h7 + s.h7) % 2 ^ 32⟩

/-- The message followed by the padding: 0x80, zeros up to 56 mod 64, and
the bit length as a 64-bit big-endian number. -/
def pad (data : List Byte) : List Byte :=
  let len := data.length
  let zeros := (119 - len % 64) % 64
  let bits := (len * 8) % 2 ^ 64
  data ++ [(0x80 : Byte)] ++ List.replicate zeros (0 : Byte) ++ be32 (bits >>> 32) ++ be32 bits

/-- Function sha256.Sum256: the 32-byte checksum of the data. -/
def Sum256 (data : List Byte) : List Byte :=
  let padded := pad data
  let d := (List.range (padded.length / 64)).foldl
    (fun d i => block d ((padded.drop (64 * i)).take 64)) init
  be32 d.h0 ++ be32 d.h1 ++ be32 d.h2 ++ be32 d.h3 ++
    be32 d.h4 ++ be32 d.h5 ++ be32 d.h6 ++ be32 d.h7

end sha256

/-! ## crypto/aes -/

namespace aes

/-- The AES substitution box. -/
def sbox0 : List Nat :=
  [0x63, 0x7c, 0x77, 0x7b, 0xf2, 0x6b, 0x6f, 0xc5, 0x30, 0x01, 0x67, 0x2b, 0xfe, 0xd7, 0xab, 0x76,
   0xca, 0x82, 0xc9, 0x7d, 0xfa, 0x59, 0x47, 0xf0, 0xad, 0xd4, 0xa2, 0xaf, 0x9c, 0xa4, 0x72, 0xc0,
   0xb7, 0xfd, 0x93, 0x26, 0x36, 0x3f, 0xf7, 0xcc, 0x34, 0xa5, 0xe5, 0xf1, 0x71, 0xd8, 0x31, 0x15,
   0x04, 0xc7, 0x23, 0xc3, 0x18, 0x96, 0x05, 0x9a, 0x07, 0x12, 0x80, 0xe2, 0xeb, 0x27, 0xb2, 0x75,
   0x09, 0x83, 0x2c, 0x1a, 0x1b, 0x6e, 0x5a, 0xa0, 0x52, 0x3b, 0xd6, 0xb3, 0x29, 0xe3, 0x2f, 0x84,
   0x53, 0xd1, 0x00, 0xed, 0x20, 0xfc, 0xb1, 0x5b, 0x6a, 0xcb, 0xbe, 0x39, 0x4a, 0x4c, 0x58, 0xcf,
   0xd0, 0xef, 0xaa, 0xfb, 0x43, 0x4d, 0x33, 0x85, 0x45, 0xf9, 0x02, 0x7f, 0x50, 0x3c, 0x9f, 0xa8,
   0x51, 0xa3, 0x40, 0x8f, 0x92, 0x9d, 0x38, 0xf5, 0xbc, 0xb6, 0xda, 0x21, 0x10, 0xff, 0xf3, 0xd2,
   0xcd, 0x0c, 0x13, 0xec, 0x5f, 0x97, 0x44, 0x17, 0xc4, 0xa7, 0x7e, 0x3d, 0x64, 0x5d, 0x19, 0x73,
   0x60, 0x81, 0x4f, 0xdc, 0x22, 0x2a, 0x90, 0x88, 0x46, 0xee, 0xb8, 0x14, 0xde, 0x5e, 0x0b, 0xdb,
   0xe0, 0x32, 0x3a, 0x0a, 0x49, 0x06, 0x24, 0x5c, 0xc2, 0xd3, 0xac, 0x62, 0x91, 0x95, 0xe4, 0x79,
   0xe7, 0xc8, 0x37, 0x6d, 0x8d, 0xd5, 0x4e, 0xa9, 0x6c, 0x56, 0xf4, 0xea, 0x65, 0x7a, 0xae, 0x08,
   0xba, 0x78, 0x25, 0x2e, 0x1c, 0xa6, 0xb4, 0xc6, 0xe8, 0xdd, 0x74, 0x1f, 0x4b, 0xbd, 0x8b, 0x8a,
   0x70, 0x3e, 0xb5, 0x66, 0x48, 0x03, 0xf6, 0x0e, 0x61, 0x35, 0x57, 0xb9, 0x86, 0xc1, 0x1d, 0x9e,
   0xe1, 0xf8, 0x98, 0x11, 0x69, 0xd9, 0x8e, 0x94, 0x9b, 0x1e, 0x87, 0xe9, 0xce, 0x55, 0x28, 0xdf,
   0x8c, 0xa1, 0x89, 0x0d, 0xbf, 0xe6, 0x42, 0x68, 0x41, 0x99, 0x2d, 0x0f, 0xb0, 0x54, 0xbb, 0x16]

/-- The substitution of one byte value. -/
def sub (x : Nat) : Nat := sbox0.getD (x % 256) 0

/-- Multiplication by x in GF(2^8) modulo x^8 + x^4 + x^3 + x + 1. -/
def xtime (a : Nat) : Nat :=
  if a <<< 1 ≥ 256 then (a <<< 1 ^^^ 0x11b) else a <<< 1

/-- The substitution applied to each byte of a word. -/
def subw (w : Nat) : Nat :=
  sub (w >>> 24) <<< 24 ||| sub (w >>> 16 &&& 0xff) <<< 16 |||
    sub (w >>> 8 &&& 0xff) <<< 8 ||| sub (w &&& 0xff)

/-- A word rotated left by one byte. -/
def rotw (w : Nat) : Nat := (w <<< 8 ||| w >>> 24) % 2 ^ 32

/-- The round constant x^i, in the top byte of a word. -/
def rcon (i : Nat) : Nat := (List.range i).foldl (fun r _ => xtime r) 1 <<< 24

/-- Key expansion: the encryption schedule of a key of nk words, 4 * (nk + 7)
words long. -/
def expandKey (key : List Byte) : List Nat :=
  let nk := key.length / 4
  (List.range (4 * (nk + 7) - nk)).foldl
    (fun enc j =>
      let i := j + nk
      let t := enc.getD (i - 1) 0
      let t :=
        if i % nk = 0 then subw (rotw t) ^^^ rcon (i / nk - 1)
        else if nk > 6 ∧ i % nk = 4 then subw t
        else t
      enc ++ [enc.getD (i - nk) 0 ^^^ t])
    ((List.range nk).map (fun i => sha256.word key (4 * i)))

/-- The column of the round function: the substituted bytes b0..b3 (one a
row of the shifted state) through MixColumns. -/
def mixColumn (b0 b1 b2 b3 : Nat) : Nat :=
  let s0 := sub b0
  let s1 := sub b1
  let s2 := sub b2
  let s3 := sub b3
  (xtime s0 ^^^ (xtime s1 ^^^ s1) ^^^ s2 ^^^ s3) <<< 24 |||
  (s0 ^^^ xtime s1 ^^^ (xtime s2 ^^^ s2) ^^^ s3) <<< 16 |||
  (s0 ^^^ s1 ^^^ xtime s2 ^^^ (xtime s3 ^^^ s3)) <<< 8 |||
  ((xtime s0 ^^^ s0) ^^^ s1 ^^^ s2 ^^^ xtime s3)

/-- The bytes of the shifted state that make up column c, given the four
column words. -/
def shifted (s : Nat × Nat × Nat × Nat) : List (Nat × Nat × Nat × Nat) :=
  let (s0, s1, s2, s3) := s
  [(s0 >>> 24, s1 >>> 16 &&& 0xff, s2 >>> 8 &&& 0xff, s3 &&& 0xff),
   (s1 >>> 24, s2 >>> 16 &&& 0xff, s3 >>> 8 &&& 0xff, s0 &&& 0xff),
   (s2 >>> 24, s3 >>> 16 &&& 0xff, s0 >>> 8 &&& 0xff, s1 &&& 0xff),
   (s3 >>> 24, s0 >>> 16 &&& 0xff, s1 >>> 8 &&& 0xff, s2 &&& 0xff)]

/-- One full round: SubBytes, ShiftRows, MixColumns, AddRoundKey with the
round key starting at word k. -/
def fullRound (xk : List Nat) (s : Nat × Nat × Nat × Nat) (k : Nat) : Nat × Nat × Nat × Nat :=
  let col := fun (i : Nat) =>
    let b := (shifted s).getD i (0, 0, 0, 0)
    mixColumn b.1 b.2.1 b.2.2.1 b.2.2.2 ^^^ xk.getD (k + i) 0
  (col 0, col 1, col 2, col 3)

/-- The last round: SubBytes, ShiftRows, AddRoundKey. -/
def lastRound (xk : List Nat) (s : Nat × Nat × Nat × Nat) (k : Nat) : Nat × Nat × Nat × Nat :=
  let col := fun (i : Nat) =>
    let b := (shifted s).getD i (0, 0, 0, 0)
    (sub b.1 <<< 24 ||| sub b.2.1 <<< 16 ||| sub b.2.2.1 <<< 8 ||| sub b.2.2.2) ^^^ xk.getD (k + i) 0
  (col 0, col 1, col 2, col 3)

/-- Block encryption with the expanded key xk: 16 bytes in, 16 bytes out. -/
def encryptBlock (xk : List Nat) (src : List Byte) : List Byte :=
  let nr := xk.length / 4 - 1
  let s : Nat × Nat × Nat × Nat :=
    (sha256.word src 0 ^^^ xk.getD 0 0, sha256.word src 4 ^^^ xk.getD 1 0,
     sha256.word src 8 ^^^ xk.getD 2 0, sha256.word src 12 ^^^ xk.getD 3 0)
  let s := (List.range (nr - 1)).foldl (fun s r => fullRound xk s (4 * (r + 1))) s
  let s := lastRound xk s (4 * nr)
  sha256.be32 s.1 ++ sha256.be32 s.2.1 ++ sha256.be32 s.2.2.1 ++ sha256.be32 s.2.2.2

end aes

/-! ## crypto/cipher: Galois counter mode -/

/-- How a Go call ends: with its value, with a returned error, or in a panic. -/
inductive Outcome (ε α : Type) where
  | ok (v : α)
  | error (e : ε)
  | panic (msg : String)
deriving DecidableEq, Repr

namespace cipher

/-- The interface cipher.Block, as far as GCM uses it. -/
structure Block where
  BlockSize : Nat
  Encrypt : List Byte → List Byte

/-- The type gcm of crypto/cipher behind the AEAD interface. -/
structure GCM where
  cipher : Block
  nonceSize : Nat
  tagSize : Nat

/-- Constant gcmBlockSize. -/
def gcmBlockSize : Nat := 16

/-- Constant gcmTagSize. -/
def gcmTagSize : Nat := 16

/-- Constant gcmMinimumTagSize. -/
def gcmMinimumTagSize : Nat := 12

/-- Constant gcmStandardNonceSize. -/
def gcmStandardNonceSize : Nat := 12

/-- The message of errOpen. -/
def errOpen : String := "cipher: message authentication failed"

/-- Function cipher.NewGCM: the block cipher wrapped in Galois counter mode
with the standard nonce and tag sizes; a cipher whose block is not 128 bits
is refused. -/
def NewGCM (cipher : Block) : Except String GCM :=
  if cipher.BlockSize ≠ gcmBlockSize then
    .error "cipher: NewGCM requires 128-bit block cipher"
  else
    .ok { cipher := cipher, nonceSize := gcmStandardNonceSize, tagSize := gcmTagSize }

/-- Function subtle.XORBytes: the bytewise exclusive or, as long as the
shorter operand. -/
def xorBytes (a b : List Byte) : List Byte := List.zipWith (fun x y => x ^^^ y) a b

/-- A block of up to 16 bytes as a 128-bit number, the first byte most
significant, missing bytes zero. -/
def blockNat (b : List Byte) : Nat :=
  (List.range 16).foldl (fun acc i => acc * 256 + (b.getD i 0).val) 0

/-- The 16 bytes of a 128-bit number, most significant first. -/
def natBlock (n : Nat) : List Byte :=
  (List.range 16).map (fun i => Fin.ofNat (n >>> (8 * (15 - i))))

/-- Multiplication in GF(2^128) as GCM defines it (bit 0 is the most
significant bit of the first byte). -/
def gfMul (x y : Nat) : Nat :=
  ((List.range 128).foldl
    (fun (zv : Nat × Nat) i =>
      let z := if x.testBit (127 - i) then zv.1 ^^^ zv.2 else zv.1
      let v := if zv.2 % 2 = 1 then zv.2 >>> 1 ^^^ 0xe1 <<< 120 else zv.2 >>> 1
      (z, v))
    (0, y)).1

/-- Method (g *gcm) update: the blocks of data, the last one zero-padded,
folded into the GHASH accumulator y under the hash key h. -/
def update (h : Nat) (y : Nat) (data : List Byte) : Nat :=
  (List.range ((data.length + 15) / 16)).foldl
    (fun y i => gfMul (y ^^^ blockNat ((data.drop (16 * i)).take 16)) h) y

/-- Method (g *gcm) auth: the tag of ciphertext and additional data. -/
def auth (g : GCM) (ciphertext additionalData tagMask : List Byte) : List Byte :=
  let h := blockNat (g.cipher.Encrypt (List.replicate 16 0))
  let y := update h 0 additionalData
  let y := update h y ciphertext
  let y := y ^^^ ((additionalData.length * 8) % 2 ^ 64) <<< 64 ^^^ (ciphertext.length * 8) % 2 ^ 64
  let y := gfMul y h
  xorBytes (natBlock y) tagMask

/-- Method (g *gcm) deriveCounter for a nonce of the standard size: the
nonce followed by the 32-bit counter value 1. -/
def deriveCounter (nonce : List Byte) : List Byte := nonce ++ [0, 0, 0, 1]

/-- Function gcmInc32: the last four bytes, a big-endian counter, plus one,
wrapping. -/
def gcmInc32 (counterBlock : List Byte) : List Byte :=
  counterBlock.take 12 ++ sha256.be32 ((sha256.word counterBlock 12 + 1) % 2 ^ 32)

/-- The key stream of n blocks: the encryptions of the successive counter
blocks. -/
def keystream (c : Block) (counter : List Byte) : Nat → List Byte
  | 0 => []
  | n + 1 => c.Encrypt counter ++ keystream c (gcmInc32 counter) n

/-- Method (g *gcm) counterCrypt: the input exclusive-ored with the key
stream, block after block. -/
def counterCrypt (g : GCM) (inp counter : List Byte) : List Byte :=
  xorBytes inp (keystream g.cipher counter ((inp.length + 15) / 16))

/-- Method (g *gcm) NonceSize. -/
def GCM.NonceSize (g : GCM) : Nat := g.nonceSize

/-- Method (g *gcm) Seal: dst followed by the ciphertext and the tag. Seal
has no error result. -/
def GCM.Seal (g : GCM) (dst nonce plaintext data : List Byte) : Outcome Empty (List Byte) :=
  if nonce.length ≠ g.nonceSize then
    .panic "crypto/cipher: incorrect nonce length given to GCM"
  else if plaintext.length > (2 ^ 32 - 2) * g.cipher.BlockSize then
    .panic "crypto/cipher: message too large for GCM"
  else
    let counter := deriveCounter nonce
    let tagMask := g.cipher.Encrypt counter
    let counter := gcmInc32 counter
    let out := counterCrypt g plaintext counter
    let tag := auth g out data tagMask
    .ok (dst ++ out ++ tag)

/-- Method (g *gcm) Open: the plaintext, once the tag at the end of the
ciphertext has been checked. -/
def GCM.Open (g : GCM) (dst nonce ciphertext data : List Byte) : Outcome String (List Byte) :=
  if nonce.length ≠ g.nonceSize then
    .panic "crypto/cipher: incorrect nonce length given to GCM"
  else if g.tagSize < gcmMinimumTagSize then
    .panic "crypto/cipher: incorrect GCM tag size"
  else if ciphertext.length < g.tagSize then
    .error errOpen
  else if ciphertext.length > (2 ^ 32 - 2) * g.cipher.BlockSize + g.tagSize then
    .error errOpen
  else
    let tag := ciphertext.drop (ciphertext.length - g.tagSize)
    let ciphertext := ciphertext.take (ciphertext.length - g.tagSize)
    let counter := deriveCounter nonce
    let tagMask := g.cipher.Encrypt counter
    let counter := gcmInc32 counter
    let expectedTag := auth g ciphertext data tagMask
    if expectedTag.take g.tagSize ≠ tag then
      .error errOpen
    else
      .ok (dst ++ counterCrypt g ciphertext counter)

end cipher

namespace aes

/-- Function aes.NewCipher: keys of 16, 24 or 32 bytes are expanded, any
other length is a KeySizeError. -/
def NewCipher (key : List Byte) : Except String cipher.Block :=
  let k := key.length
  if k = 16 ∨ k = 24 ∨ k = 32 then
    .ok { BlockSize := 16, Encrypt := encryptBlock (expandKey key) }
  else
    .error ("crypto/aes: invalid key size " ++ toString k)

end aes

/-! ## server/crypto.go -/

/-- Function io.ReadFull on a reader that can deliver the bytes of r and
then fails: exactly n bytes, or an error. -/
def ioReadFull (r : List Byte) (n : Nat) : Except String (List Byte) :=
  if r.length < n then .error "unexpected EOF" else .ok (r.take n)

/-- The errors Encrypt and Decrypt build with fmt.Errorf, one for each
message; the text of the wrapped library error is not kept. -/
inductive CryptoError where
  | failedToCreateCipher
  | failedToCreateGCM
  | failedToGenerateNonce
  | failedToDecodeBase64
  | ciphertextTooShort
  | failedToDecrypt
deriving DecidableEq, Repr

/-- deriveKey derives a 32-byte key from passphrase using SHA-256. -/
def deriveKey (passphrase : String) : List Byte :=
  sha256.Sum256 (stringBytes passphrase)

/-- Encrypt encrypts plaintext using AES-256-GCM with a passphrase. The
first argument is what rand.Reader delivers. -/
def Encrypt (rnd : List Byte) (plaintext : List Byte) (passphrase : String) :
    Outcome CryptoError (List Byte) :=
  let key := deriveKey passphrase
  match aes.NewCipher key with
  | .error _ => .error .failedToCreateCipher
  | .ok block =>
    match cipher.NewGCM block with
    | .error _ => .error .failedToCreateGCM
    | .ok gcm =>
      match ioReadFull rnd gcm.NonceSize with
      | .error _ => .error .failedToGenerateNonce
      | .ok nonce =>
        match gcm.Seal nonce nonce plaintext [] with
        | .panic msg => .panic msg
        | .error e => nomatch e
        | .ok ciphertext =>
          let encoded := base64.EncodeToString ciphertext
          .ok encoded

/-- Decrypt decrypts ciphertext using AES-256-GCM with a passphrase. -/
def Decrypt (ciphertext : List Byte) (passphrase : String) :
    Outcome CryptoError (List Byte) :=
  let key := deriveKey passphrase
  match base64.DecodeString ciphertext with
  | none => .error .failedToDecodeBase64
  | some decoded =>
    match aes.NewCipher key with
    | .error _ => .error .failedToCreateCipher
    | .ok block =>
      match cipher.NewGCM block with
      | .error _ => .error .failedToCreateGCM
      | .ok gcm =>
        let nonceSize := gcm.NonceSize
        if decoded.length < nonceSize then .error .ciphertextTooShort
        else
          let nonce := decoded.take nonceSize
          let ciphertext := decoded.drop nonceSize
          match gcm.Open [] nonce ciphertext [] with
          | .panic msg => .panic msg
          | .error _ => .error .failedToDecrypt
          | .ok plaintext => .ok plaintext

/-- The AEAD that Encrypt and Decrypt set up for a passphrase: AES under the
derived key, in Galois counter mode with the standard sizes. -/
def keyedGCM (passphrase : String) : cipher.GCM :=
  { cipher := { BlockSize := 16, Encrypt := aes.encryptBlock (aes.expandKey (deriveKey passphrase)) },
    nonceSize := cipher.gcmStandardNonceSize,
    tagSize := cipher.gcmTagSize }

namespace client

/-- The double-quote rune U+0022. -/
def dquote : Char := Char.ofNat 34

/-- The single-quote rune U+0027. -/
def squote : Char := Char.ofNat 39

/-- Loop variables of parseCommand: the arguments finished so far, the
strings.Builder being filled, and the quote state. The builder is only
written to by WriteRune with runes of the range loop, so what it holds is
text: it is kept as the list of the runes written, and a finished argument
is the string of these runes. -/
structure ParserState where
  parts : List String
  current : List Char
  inQuote : Bool
  quoteChar : Char
deriving DecidableEq, Repr

/-- One iteration of the range loop of parseCommand (the switch on the rune). -/
def parseStep (st : ParserState) (char : Char) : ParserState :=
  if char = dquote ∨ char = squote then
    if st.inQuote then
      if char = st.quoteChar then
        { st with inQuote := false, quoteChar := Char.ofNat 0 }
      else
        { st with current := st.current ++ [char] }
    else
      { st with inQuote := true, quoteChar := char }
  else if char = ' ' ∧ st.inQuote = false then
    if st.current.length > 0 then
      { st with parts := st.parts ++ [String.mk st.current], current := [] }
    else
      st
  else
    { st with current := st.current ++ [char] }

/-- The state parseCommand starts its loop in. -/
def parseInit : ParserState :=
  { parts := [], current := [], inQuote := false, quoteChar := Char.ofNat 0 }

/-- The flush after the loop: a non-empty builder becomes the last argument. -/
def parseFinish (st : ParserState) : List String :=
  if st.current.length > 0 then st.parts ++ [String.mk st.current] else st.parts

/-- parseCommand of client/main.go: the input, a Go string and so any
bytes, is ranged over rune by rune. -/
def parseCommand (input : List Byte) : List String :=
  parseFinish ((rangeRunes input).foldl parseStep parseInit)

/-- Go's unicode.IsSpace: the Latin-1 spaces and the Unicode White_Space
code points of category Z. -/
def isSpace (c : Char) : Bool :=
  let n := c.toNat
  (9 ≤ n ∧ n ≤ 13) ∨ n = 32 ∨ n = 0x85 ∨ n = 0xA0 ∨ n = 0x1680 ∨
  (0x2000 ≤ n ∧ n ≤ 0x200A) ∨ n = 0x2028 ∨ n = 0x2029 ∨ n = 0x202F ∨
  n = 0x205F ∨ n = 0x3000

/-- The loop of strings.TrimLeftFunc with unicode.IsSpace: the string from
its first rune that is not white space on. The first argument bounds the
number of steps; the length of the string plus one is enough. -/
def trimLeft : Nat → List Byte → List Byte
  | 0, s => s
  | _ + 1, [] => []
  | n + 1, b :: rest =>
    if isSpace (utf8.DecodeRune (b :: rest)).1 then
      trimLeft n ((b :: rest).drop (utf8.DecodeRune (b :: rest)).2)
    else b :: rest

/-- The loop of strings.lastIndexFunc with unicode.IsSpace: going back from
byte index i, the index at which the last rune that is not white space
starts; none for the result -1. The first argument bounds the number of
steps. -/
def lastIndexNotSpace : Nat → List Byte → Nat → Option Nat
  | 0, _, _ => none
  | n + 1, s, i =>
    if i = 0 then none
    else if isSpace (utf8.DecodeLastRune (s.take i)).1 then
      lastIndexNotSpace n s (i - (utf8.DecodeLastRune (s.take i)).2)
    else some (i - (utf8.DecodeLastRune (s.take i)).2)

/-- Go's strings.TrimRightFunc with unicode.IsSpace. -/
def trimRight (s : List Byte) : List Byte :=
  match lastIndexNotSpace (s.length + 1) s s.length with
  | none => []
  | some i =>
    if (s.getD i 0).val ≥ 0x80 then s.take (i + (utf8.DecodeRune (s.drop i)).2)
    else s.take (i + 1)

/-- Go's strings.TrimSpace: leading and trailing white space, as Unicode
defines it, removed (its fast path for ASCII gives the same result). -/
def TrimSpace (s : List Byte) : List Byte :=
  trimRight (trimLeft (s.length + 1) s)

/-- The wire record Command of client/main.go. -/
structure Command where
  Action : String
  Command : List String
deriving DecidableEq, Repr

/-- What one pass of the InteractiveShell loop does with the line it read:
the last case is the call of SendCommand with the parsed parts. -/
inductive ShellAction where
  | readError
  | skip
  | exit
  | clear
  | help
  | send (cmdParts : List String)
deriving DecidableEq, Repr

/-- The Command value SendCommand builds from its argument. -/
def commandOf (cmdParts : List String) : Command :=
  { Action := "exec", Command := cmdParts }

/-- One pass of the for loop of InteractiveShell: the read result is the
line, as bytes, or the reader's failure. -/
def interactiveStep (read : Except String (List Byte)) : ShellAction :=
  match read with
  | .error _ => .readError
  | .ok line =>
    let input := TrimSpace line
    if input = stringBytes "" then .skip
    else if input = stringBytes "exit" ∨ input = stringBytes "quit" then .exit
    else if input = stringBytes "clear" then .clear
    else if input = stringBytes "help" then .help
    else
      let parts := parseCommand input
      if parts.length = 0 then .skip
      else .send parts

/-- Spec wording of the splitting: the maximal runs of elements that are
not separators, in order (split on separators, empty fields discarded). -/
def fieldsBy {α : Type} (sep : α → Bool) (input : List α) : List (List α) :=
  (input.splitOnP sep).filter (fun f => !f.isEmpty)

/-- Every argument of a list is a non-empty string. -/
def PartsNonEmpty (ps : List String) : Prop := ∀ p ∈ ps, p ≠ ""

end client

/-! ## The transport and the subprocess, as observable events -/

/-- What a handler does to the outside world, in order: calls of the MQTT
client, the subprocess run, the Response value sendResponse builds, and a
panic that ends the handler. Logging is left out. -/
inductive Event (Response : Type) where
  | subscribe (topic : String) (qos : Nat)
  | publish (topic : String) (qos : Nat) (retained : Bool) (payload : List Byte)
  | exec (name : String) (args : List String)
  | response (r : Response)
  | panicked (msg : String)
deriving DecidableEq, Repr

/-- The topics subscribed to, in order. -/
def subscribeTopics {R : Type} : List (Event R) → List String
  | [] => []
  | .subscribe topic _ :: es => topic :: subscribeTopics es
  | _ :: es => subscribeTopics es

/-- The topics published to, in order. -/
def publishTopics {R : Type} : List (Event R) → List String
  | [] => []
  | .publish topic _ _ _ :: es => topic :: publishTopics es
  | _ :: es => publishTopics es

/-- The messages published, in order: topic and payload. -/
def publishedOf {R : Type} : List (Event R) → List (String × List Byte)
  | [] => []
  | .publish topic _ _ payload :: es => (topic, payload) :: publishedOf es
  | _ :: es => publishedOf es

/-- The Response values built, in order: one for each call of sendResponse. -/
def responsesOf {R : Type} : List (Event R) → List R
  | [] => []
  | .response r :: es => r :: responsesOf es
  | _ :: es => responsesOf es

/-- The argument vectors of the subprocesses run, in order. -/
def execsOf {R : Type} : List (Event R) → List (List String)
  | [] => []
  | .exec name args :: es => (name :: args) :: execsOf es
  | _ :: es => execsOf es

/-- A Go map from string to string value, as its entries; assignment
replaces the entry of the key. -/
abbrev StringMap := List (String × String)

/-- The map assignment m[k] = v. -/
def StringMap.set (m : StringMap) (k v : String) : StringMap :=
  m.filter (fun kv => kv.1 ≠ k) ++ [(k, v)]

/-- The map read m[k]. -/
def StringMap.get (m : StringMap) (k : String) : Option String :=
  (m.find? (fun kv => kv.1 = k)).map (fun kv => kv.2)

/-! ## server/main.go, server/config.go -/

namespace server

/-- Type Config of server/config.go. -/
structure Config where
  BrokerURL : String
  ClientID : String
  Username : String
  Password : String
  TopicPrefix : String
  UseTLS : Bool
  CAFile : String
  ExecKey : String
deriving DecidableEq, Repr

/-- Type Command of server/main.go; a nil slice is the empty list. -/
structure Command where
  Action : String
  Command : List String
deriving DecidableEq, Repr

/-- Type Response of server/main.go; Data none is the nil map, Timestamp
the instant as a number. The server only ever stores strings in Data. -/
structure Response where
  Success : Bool
  Message : String
  Data : Option StringMap
  Timestamp : Nat
deriving DecidableEq, Repr

/-- The fields of a Response other than the time: success, message, data. -/
def Response.core (r : Response) : Bool × String × Option StringMap :=
  (r.Success, r.Message, r.Data)

/-- Type ShellServer, without the MQTT client handle and the context. -/
structure ShellServer where
  config : Config
deriving DecidableEq, Repr

/-- What the world supplies while one message is handled: the JSON codec
(json.Unmarshal into a Command, json.Marshal of a Response), the subprocess
run (cmd.CombinedOutput under the 30 second context: the captured output and
the text of the error, if any), the clock and the random source. -/
structure Env where
  unmarshalCommand : List Byte → Except String Command
  marshalResponse : Response → Except String (List Byte)
  combinedOutput : String → List String → String × Option String
  now : Nat
  rnd : List Byte

/-- Method ShellServer.onConnect: subscribe to the command topic. -/
def onConnect (s : ShellServer) : List (Event Response) :=
  let topic := s.config.TopicPrefix ++ "/x9vkff7p4"
  [.subscribe topic 1]

/-- Method ShellServer.sendResponse: build the Response, marshal, encrypt
and publish it on the response topic. -/
def sendResponse (s : ShellServer) (env : Env) (success : Bool) (message : String)
    (data : Option StringMap) : List (Event Response) :=
  let resp : Response :=
    { Success := success, Message := message, Data := data, Timestamp := env.now }
  .response resp ::
    match env.marshalResponse resp with
    | .error _ => []
    | .ok payload =>
      match Encrypt env.rnd payload s.config.ExecKey with
      | .error _ => []
      | .panic msg => [.panicked msg]
      | .ok encrypted =>
        let topic := s.config.TopicPrefix ++ "/response/x9vkff7p4"
        [.publish topic 1 false encrypted]

/-- Method ShellServer.executeCommand: run the command and report. -/
def executeCommand (s : ShellServer) (env : Env) (cmdParts : List String) :
    List (Event Response) :=
  let cmdStr := " ".intercalate cmdParts
  match cmdParts with
  | [] => [.panicked "index out of range [0] with length 0"]
  | name :: args =>
    match env.combinedOutput name args with
    | (output, err) =>
      let data : StringMap := [("command", cmdStr), ("output", output)]
      match err with
      | some e =>
        .exec name args ::
          sendResponse s env false "Command execution failed" (some (data.set "error" e))
      | none =>
        .exec name args :: sendResponse s env true "Command executed successfully" (some data)

/-- Method ShellServer.messageHandler: decrypt, parse, validate, execute. -/
def messageHandler (s : ShellServer) (env : Env) (payload : List Byte) :
    List (Event Response) :=
  match Decrypt payload s.config.ExecKey with
  | .panic msg => [.panicked msg]
  | .error _ => sendResponse s env false "Decryption failed" none
  | .ok decrypted =>
    match env.unmarshalCommand decrypted with
    | .error _ => sendResponse s env false "Invalid command format" none
    | .ok cmd =>
      if cmd.Command.length = 0 then
        sendResponse s env false "No command specified" none
      else
        executeCommand s env cmd.Command

end server

/-! ## client/main.go -/

namespace client

/-- Modelled from the spec: the Config of the client package (its config.go
is not among the sources), with the fields client/main.go reads: the broker
URL, client identifier, user name and password, topic prefix, TLS toggle and
the shared secret. -/
structure Config where
  BrokerURL : String
  ClientID : String
  Username : String
  Password : String
  TopicPrefix : String
  UseTLS : Bool
  ExecKey : String
deriving DecidableEq, Repr

/-- Type Response of client/main.go, over the type of the values
json.Unmarshal stores in the Data map. -/
structure Response (Value : Type) where
  Success : Bool
  Message : String
  Data : Option (List (String × Value))
  Timestamp : Nat
deriving DecidableEq, Repr

/-- A buffered channel: its capacity and the values queued, oldest first. -/
structure Chan (α : Type) where
  cap : Nat
  buf : List α
deriving DecidableEq, Repr

/-- Type ShellClient, without the MQTT client handle. -/
structure ShellClient (Value : Type) where
  config : Config
  responses : Chan (Response Value)

/-- Function NewShellClient: the response channel has capacity 10. -/
def NewShellClient {Value : Type} (config : Config) : ShellClient Value :=
  { config := config, responses := { cap := 10, buf := [] } }

/-- What the world supplies to the client: the crypto functions of the
client package (its crypto.go is not among the sources; Encrypt with its
random source already chosen) and the JSON codec. -/
structure Env (Value : Type) where
  Encrypt : List Byte → String → Outcome CryptoError (List Byte)
  Decrypt : List Byte → String → Outcome CryptoError (List Byte)
  marshalCommand : Command → Except String (List Byte)
  unmarshalResponse : List Byte → Except String (Response Value)
  publishError : Option String

/-- How a run of the client's messageHandler ends: it returns, leaving the
client in a state; or it blocks in the channel send, holding a Response,
because the channel is full; or it panics. -/
inductive Handled (Value : Type) where
  | returned (c : ShellClient Value)
  | blocked (c : ShellClient Value) (resp : Response Value)
  | panicked (msg : String)

/-- Method ShellClient.onConnect: subscribe to the response topic. -/
def onConnect {Value : Type} (c : ShellClient Value) : List (Event (Response Value)) :=
  let topic := c.config.TopicPrefix ++ "/response/x9vkff7p4"
  [.subscribe topic 1]

/-- Method ShellClient.messageHandler: decrypt and parse the response and
send it on the channel. -/
def messageHandler {Value : Type} (env : Env Value) (c : ShellClient Value)
    (payload : List Byte) : Handled Value :=
  match env.Decrypt payload c.config.ExecKey with
  | .panic msg => .panicked msg
  | .error _ => .returned c
  | .ok decrypted =>
    match env.unmarshalResponse decrypted with
    | .error _ => .returned c
    | .ok resp =>
      if c.responses.buf.length < c.responses.cap then
        .returned { c with responses := { c.responses with buf := c.responses.buf ++ [resp] } }
      else
        .blocked c resp

/-- Method ShellClient.SendCommand: the calls made and the error returned. -/
def SendCommand {Value : Type} (env : Env Value) (c : ShellClient Value)
    (cmdParts : List String) : List (Event (Response Value)) × Option String :=
  let cmd := commandOf cmdParts
  match env.marshalCommand cmd with
  | .error _ => ([], some "failed to marshal command")
  | .ok payload =>
    match env.Encrypt payload c.config.ExecKey with
    | .panic msg => ([.panicked msg], none)
    | .error _ => ([], some "failed to encrypt command")
    | .ok encrypted =>
      let topic := c.config.TopicPrefix ++ "/x9vkff7p4"
      ([.publish topic 1 false encrypted], env.publishError)

end client

/-! ## Sample inputs -/

/-- A sample of what the random source delivers: the bytes 1 to 12. -/
def sampleNonce : List Byte := [1, 2, 3, 4, 5, 6, 7, 8, 9, 10, 11, 12]

/-- The envelope of the payload "hi" under the passphrase "secret" and the
sample nonce. -/
def sampleEnvelope : List Byte :=
  stringBytes "AQIDBAUGBwgJCgsMN5eGUXz0bf1Q1vMIvlx4Znz/"

/-- The bytes of the sample envelope, the last byte of the tag changed. -/
def sampleTamperedBytes : List Byte :=
  [1, 2, 3, 4, 5, 6, 7, 8, 9, 10, 11, 12, 55, 151, 134, 81, 124, 244, 109, 253, 80, 214, 243, 8,
   190, 92, 120, 102, 124, 254]

/-- The sample envelope after tampering: the text of sampleTamperedBytes. -/
def sampleTampered : List Byte := base64.EncodeToString sampleTamperedBytes

/-- A command record with the action "exec", as JSON text. -/
def sampleCommandText : List Byte :=
  stringBytes "\x7b\"action\":\"exec\",\"command\":[\"ls\"]\x7d"

/-- The same command record without an action field. -/
def sampleCommandTextNoAction : List Byte :=
  stringBytes "\x7b\"command\":[\"ls\"]\x7d"

/-- The envelope of sampleCommandText under "secret" and the sample nonce. -/
def sampleCommandEnvelope : List Byte :=
  stringBytes
    "AQIDBAUGBwgJCgsMJNx1KMG6J2pqaDB4peYgx2INZ/Hx+d71EanX94cbl3QMvy6bHkQjk9RN7Nns9v5gGZY="

/-- The envelope of sampleCommandTextNoAction under "secret" and the nonce
21 to 32. -/
def sampleCommandEnvelopeNoAction : List Byte :=
  stringBytes "FRYXGBkaGxwdHh8gzQrB5oJZeojLGPh5xG3qgbTk4Fe7yVZ8VHZ8aCOXc+Uq/Q=="

/-- A response record, as JSON text. -/
def sampleResponseText : List Byte :=
  stringBytes "\x7b\"success\":true,\"message\":\"ok\"\x7d"

/-- The envelope of sampleResponseText under "secret" and the sample nonce. -/
def sampleResponseEnvelope : List Byte :=
  stringBytes
    "AQIDBAUGBwgJCgsMJNxnPtawLXc7cChpr/YmyWxCYe3v9dj+V7HPw85Vmc3PpapjUt4d2LAkiUbCydo="

/-- The envelope of the text of an empty JSON object under "secret" and the
sample nonce. -/
def sampleEmptyObjectEnvelope : List Byte :=
  stringBytes "AQIDBAUGBwgJCgsMJIMdy8AEDBCdkwW+LMWy7/ja"

/-- A server configured with the default topic prefix and the passphrase
"secret". -/
def sampleServer : server.ShellServer :=
  { config :=
      { BrokerURL := "tcp://localhost:1883", ClientID := "mqtt-shell-server-host",
        Username := "", Password := "", TopicPrefix := "mqtt-shell", UseTLS := false,
        CAFile := "", ExecKey := "secret" } }

/-- A world for the server: the codec knows the two sample command texts,
the command ls prints one line and every other command fails. -/
def sampleServerEnv : server.Env :=
  { unmarshalCommand := fun d =>
      if d = sampleCommandText then .ok { Action := "exec", Command := ["ls"] }
      else if d = sampleCommandTextNoAction then .ok { Action := "", Command := ["ls"] }
      else .error "invalid character",
    marshalResponse := fun _ => .ok (stringBytes "\x7b\x7d"),
    combinedOutput := fun name _ =>
      if name = "ls" then ("main.go\n", none) else ("", some "exit status 1"),
    now := 7,
    rnd := sampleNonce }

/-- A client configured like the sample server, with an empty channel. -/
def sampleClient : client.ShellClient String :=
  client.NewShellClient
    { BrokerURL := "tcp://localhost:1883", ClientID := "mqtt-shell-client-host",
      Username := "", Password := "", TopicPrefix := "mqtt-shell", UseTLS := false,
      ExecKey := "secret" }

/-- A world for the client: the crypto functions are those of the server
package, the codec knows the sample response text. -/
def sampleClientEnv : client.Env String :=
  { Encrypt := Encrypt sampleNonce,
    Decrypt := Decrypt,
    marshalCommand := fun _ => .ok sampleCommandText,
    unmarshalResponse := fun d =>
      if d = sampleResponseText then
        .ok { Success := true, Message := "ok", Data := none, Timestamp := 0 }
      else .error "invalid character",
    publishError := none }

/-! # Lemmas -/

namespace base64

theorem or_shift (x y k : Nat) (h : y < 2 ^ k) : x <<< k ||| y = x * 2 ^ k + y := by
  rw [Nat.shiftLeft_eq, Nat.mul_comm x, Nat.mul_add_lt_is_or h]

theorem and_63 (x : Nat) : x &&& 0x3F = x % 64 :=
  Nat.and_pow_two_sub_one_eq_mod x 6

theorem pack3 (a b c : Nat) (hb : b < 256) (hc : c < 256) :
    a <<< 16 ||| b <<< 8 ||| c = a * 65536 + b * 256 + c := by
  have h1 : a <<< 16 ||| b <<< 8 = a * 65536 + b * 256 := by
    rw [or_shift a (b <<< 8) 16 (by rw [Nat.shiftLeft_eq]; omega), Nat.shiftLeft_eq]
    norm_num
  have h2 : a * 65536 + b * 256 = (a * 256 + b) <<< 8 := by
    rw [Nat.shiftLeft_eq]; omega
  rw [h1, h2, or_shift _ c 8 (by omega)]
  omega

theorem pack4 (s0 s1 s2 s3 : Nat) (h1 : s1 < 64) (h2 : s2 < 64) (h3 : s3 < 64) :
    s0 <<< 18 ||| s1 <<< 12 ||| s2 <<< 6 ||| s3
      = s0 * 262144 + s1 * 4096 + s2 * 64 + s3 := by
  have e1 : s0 <<< 18 ||| s1 <<< 12 = (s0 * 64 + s1) <<< 12 := by
    rw [or_shift s0 (s1 <<< 12) 18 (by rw [Nat.shiftLeft_eq]; omega), Nat.shiftLeft_eq,
      Nat.shiftLeft_eq]
    omega
  have e2 : (s0 * 64 + s1) <<< 12 ||| s2 <<< 6 = ((s0 * 64 + s1) * 64 + s2) <<< 6 := by
    rw [or_shift _ (s2 <<< 6) 12 (by rw [Nat.shiftLeft_eq]; omega), Nat.shiftLeft_eq,
      Nat.shiftLeft_eq]
    omega
  rw [e1, e2, or_shift _ s3 6 (by omega)]
  omega

theorem decodeMap_encode_fin : ∀ i : Fin 64, decodeMap (encode i.val) = some i.val := by
  decide

theorem decodeMap_encode (v : Nat) : decodeMap (encode v) = some (v % 64) := by
  have h := decodeMap_encode_fin ⟨v % 64, Nat.mod_lt _ (by norm_num)⟩
  have e : encode (v % 64) = encode v := by simp [encode]
  simpa [e] using h

theorem decodeMap_pad : decodeMap StdPadding = none := by decide

theorem isNewline_pad : isNewline StdPadding = false := by decide

theorem dropWhile_pad : List.dropWhile isNewline [StdPadding] = [StdPadding] := by decide

theorem quantum4 (a b c : Byte) :
    quantumBytes
      [((a.val <<< 16 ||| b.val <<< 8 ||| c.val) >>> 18 &&& 0x3F) % 64,
       ((a.val <<< 16 ||| b.val <<< 8 ||| c.val) >>> 12 &&& 0x3F) % 64,
       ((a.val <<< 16 ||| b.val <<< 8 ||| c.val) >>> 6 &&& 0x3F) % 64,
       ((a.val <<< 16 ||| b.val <<< 8 ||| c.val) &&& 0x3F) % 64] = [a, b, c] := by
  have ha := a.isLt
  have hb := b.isLt
  have hc := c.isLt
  simp only [quantumBytes, List.getD_cons_zero, List.getD_cons_succ, List.length_cons,
    List.length_nil, and_63, Nat.shiftRight_eq_div_pow, pack3 _ _ _ hb hc]
  rw [pack4 _ _ _ _ (Nat.mod_lt _ (by norm_num)) (Nat.mod_lt _ (by norm_num))
    (Nat.mod_lt _ (by norm_num))]
  simp only [List.take, Fin.ofNat, List.cons.injEq, and_true]
  refine ⟨?_, ?_, ?_⟩ <;> apply Fin.ext <;> simp only [] <;> omega

theorem quantum3 (a b : Byte) :
    quantumBytes
      [((a.val <<< 16 ||| b.val <<< 8) >>> 18 &&& 0x3F) % 64,
       ((a.val <<< 16 ||| b.val <<< 8) >>> 12 &&& 0x3F) % 64,
       ((a.val <<< 16 ||| b.val <<< 8) >>> 6 &&& 0x3F) % 64] = [a, b] := by
  have ha := a.isLt
  have hb := b.isLt
  have h0 : a.val <<< 16 ||| b.val <<< 8 = a.val * 65536 + b.val * 256 := by
    have := pack3 a.val b.val 0 hb (by norm_num)
    simpa using this
  simp only [quantumBytes, List.getD_cons_zero, List.getD_cons_succ, List.length_cons,
    List.length_nil, List.getD_nil, and_63, Nat.shiftRight_eq_div_pow, h0]
  rw [pack4 _ _ _ _ (Nat.mod_lt _ (by norm_num)) (Nat.mod_lt _ (by norm_num))
    (by norm_num)]
  simp only [List.take, Fin.ofNat, List.cons.injEq, and_true]
  refine ⟨?_, ?_⟩ <;> apply Fin.ext <;> simp only [] <;> omega

theorem quantum2 (a : Byte) :
    quantumBytes
      [((a.val <<< 16) >>> 18 &&& 0x3F) % 64,
       ((a.val <<< 16) >>> 12 &&& 0x3F) % 64] = [a] := by
  have ha := a.isLt
  have h0 : a.val <<< 16 = a.val * 65536 := by rw [Nat.shiftLeft_eq]
  simp only [quantumBytes, List.getD_cons_zero, List.getD_cons_succ, List.length_cons,
    List.length_nil, List.getD_nil, and_63, Nat.shiftRight_eq_div_pow, h0]
  rw [pack4 _ _ _ _ (Nat.mod_lt _ (by norm_num)) (by norm_num) (by norm_num)]
  simp only [List.take, Fin.ofNat, List.cons.injEq, and_true]
  apply Fin.ext
  simp only []
  omega

/-- Decoding what EncodeToString produced gives the bytes back. -/
theorem DecodeString_EncodeToString (x : List Byte) :
    DecodeString (EncodeToString x) = some x := by
  unfold DecodeString
  induction x using EncodeToString.induct with
  | case1 a b c rest ih =>
    simp only [EncodeToString, decodeLoop, decodeMap_encode, List.length_nil, List.length_cons,
      List.nil_append, List.cons_append, ih, Option.map_some', quantum4]
    simp
  | case2 a b =>
    simp only [EncodeToString, decodeLoop, decodeMap_encode, decodeMap_pad, List.length_nil,
      List.length_cons, List.nil_append, List.cons_append, quantum3, isNewline_pad]
    simp
  | case3 a =>
    simp only [EncodeToString, decodeLoop, decodeMap_encode, decodeMap_pad, List.length_nil,
      List.length_cons, List.nil_append, List.cons_append, quantum2, isNewline_pad,
      dropWhile_pad]
    simp
  | case4 => simp [EncodeToString, decodeLoop]

end base64

/-! ### UTF-8 -/

namespace utf8

theorem byte_val (x : Nat) : (byte x).val = x % 256 := rfl

theorem and_3F (x : Nat) : x &&& 0x3F = x % 64 := Nat.and_pow_two_sub_one_eq_mod x 6

theorem and_1F (x : Nat) : x &&& 0x1F = x % 32 := Nat.and_pow_two_sub_one_eq_mod x 5

theorem and_0F (x : Nat) : x &&& 0x0F = x % 16 := Nat.and_pow_two_sub_one_eq_mod x 4

theorem and_07 (x : Nat) : x &&& 0x07 = x % 8 := Nat.and_pow_two_sub_one_eq_mod x 3

theorem or_80 (x : Nat) (h : x < 64) : 0x80 ||| x = 128 + x := by
  have := base64.or_shift 2 x 6 (by simpa using h)
  simpa [Nat.shiftLeft_eq] using this

theorem or_C0 (x : Nat) (h : x < 32) : 0xC0 ||| x = 192 + x := by
  have := base64.or_shift 6 x 5 (by simpa using h)
  simpa [Nat.shiftLeft_eq] using this

theorem or_E0 (x : Nat) (h : x < 16) : 0xE0 ||| x = 224 + x := by
  have := base64.or_shift 14 x 4 (by simpa using h)
  simpa [Nat.shiftLeft_eq] using this

theorem or_F0 (x : Nat) (h : x < 8) : 0xF0 ||| x = 240 + x := by
  have := base64.or_shift 30 x 3 (by simpa using h)
  simpa [Nat.shiftLeft_eq] using this

theorem join2 (a b : Nat) (hb : b < 64) : a <<< 6 ||| b = a * 64 + b := by
  simpa using base64.or_shift a b 6 (by simpa using hb)

theorem join3 (a b c : Nat) (ha : a < 64) (hb : b < 64) (hc : c < 64) :
    a <<< 12 ||| b <<< 6 ||| c = a * 4096 + b * 64 + c := by
  have := base64.pack4 0 a b c ha hb hc
  simpa using this

theorem join4 (a b c d : Nat) (hb : b < 64) (hc : c < 64) (hd : d < 64) :
    a <<< 18 ||| b <<< 12 ||| c <<< 6 ||| d = a * 262144 + b * 4096 + c * 64 + d :=
  base64.pack4 a b c d hb hc hd

/-- EncodeRune in arithmetic. -/
theorem EncodeRune_eq (r : Nat) (hv : r < 0xD800 ∨ (0xDFFF < r ∧ r < 0x110000)) :
    EncodeRune r =
      if r ≤ 0x7F then [byte r]
      else if r ≤ 0x7FF then [byte (192 + r / 64), byte (128 + r % 64)]
      else if r ≤ 0xFFFF then
        [byte (224 + r / 4096), byte (128 + r / 64 % 64), byte (128 + r % 64)]
      else
        [byte (240 + r / 262144), byte (128 + r / 4096 % 64), byte (128 + r / 64 % 64),
          byte (128 + r % 64)] := by
  unfold EncodeRune
  have hbad : ¬ (r > 0x10FFFF ∨ (0xD800 ≤ r ∧ r ≤ 0xDFFF)) := by omega
  simp only [Nat.shiftRight_eq_div_pow, and_3F]
  split_ifs with h1 h2 h3
  · rfl
  · rw [or_C0 _ (by omega), or_80 _ (by omega)]
  · rw [or_E0 _ (by omega), or_80 _ (by omega), or_80 _ (by omega)]
  · rw [or_F0 _ (by omega), or_80 _ (by omega), or_80 _ (by omega), or_80 _ (by omega)]

/-- DecodeRune in arithmetic. -/
theorem DecodeRune_eq (b : Byte) (rest : List Byte) :
    DecodeRune (b :: rest) =
      if b.val < 0x80 then (Char.ofNat b.val, 1)
      else
        match first b.val with
        | none => (RuneError, 1)
        | some (sz, lo, hi) =>
          if rest.length + 1 < sz then (RuneError, 1)
          else if (rest.getD 0 0).val < lo ∨ hi < (rest.getD 0 0).val then (RuneError, 1)
          else if sz ≤ 2 then (Char.ofNat (b.val % 32 * 64 + (rest.getD 0 0).val % 64), 2)
          else if (rest.getD 1 0).val < 0x80 ∨ 0xBF < (rest.getD 1 0).val then (RuneError, 1)
          else if sz ≤ 3 then
            (Char.ofNat (b.val % 16 * 4096 + (rest.getD 0 0).val % 64 * 64
              + (rest.getD 1 0).val % 64), 3)
          else if (rest.getD 2 0).val < 0x80 ∨ 0xBF < (rest.getD 2 0).val then (RuneError, 1)
          else
            (Char.ofNat (b.val % 8 * 262144 + (rest.getD 0 0).val % 64 * 4096
              + (rest.getD 1 0).val % 64 * 64 + (rest.getD 2 0).val % 64), 4) := by
  simp only [DecodeRune, and_3F, and_1F, and_0F, and_07]
  rw [join2 _ _ (Nat.mod_lt _ (by norm_num)),
    join3 _ _ _ (by omega) (Nat.mod_lt _ (by norm_num)) (Nat.mod_lt _ (by norm_num)),
    join4 _ _ _ _ (Nat.mod_lt _ (by norm_num)) (Nat.mod_lt _ (by norm_num))
      (Nat.mod_lt _ (by norm_num))]

theorem Char_valid (c : Char) :
    c.toNat < 0xD800 ∨ (0xDFFF < c.toNat ∧ c.toNat < 0x110000) := c.valid

theorem first_2 (p0 : Nat) (h : 0xC2 ≤ p0 ∧ p0 ≤ 0xDF) : first p0 = some (2, 0x80, 0xBF) := by
  unfold first
  rw [if_pos h]

theorem first_3 (k : Nat) (hk : k < 16) :
    first (224 + k)
      = some (3, if k = 0 then 0xA0 else 0x80, if k = 13 then 0x9F else 0xBF) := by
  interval_cases k <;> rfl

theorem first_4 (k : Nat) (hk : k < 5) :
    first (240 + k)
      = some (4, if k = 0 then 0x90 else 0x80, if k = 4 then 0x8F else 0xBF) := by
  interval_cases k <;> rfl

/-- Decoding the encoding of a character gives the character and the
length of the encoding, whatever follows. -/
theorem DecodeRune_EncodeRune (c : Char) (rest : List Byte) :
    DecodeRune (EncodeRune c.toNat ++ rest) = (c, (EncodeRune c.toNat).length) := by
  have hv := Char_valid c
  have hc : Char.ofNat c.toNat = c := Char.ofNat_toNat c
  rw [EncodeRune_eq _ hv]
  by_cases h1 : c.toNat ≤ 0x7F
  · rw [if_pos h1]
    simp only [List.singleton_append, DecodeRune_eq, byte_val, List.length_singleton]
    have e : c.toNat % 256 = c.toNat := by omega
    rw [e, if_pos (by omega), hc]
  · rw [if_neg h1]
    by_cases h2 : c.toNat ≤ 0x7FF
    · rw [if_pos h2]
      simp only [List.cons_append, List.nil_append, DecodeRune_eq, byte_val, List.getD_cons_zero,
        List.length_cons, List.length_nil]
      have e0 : (192 + c.toNat / 64) % 256 = 192 + c.toNat / 64 := by omega
      have e1 : (128 + c.toNat % 64) % 256 = 128 + c.toNat % 64 := by omega
      rw [e0, e1, if_neg (by omega), first_2 _ (by omega)]
      simp only []
      rw [if_neg (by omega), if_neg (by omega), if_pos (by omega)]
      have e : (192 + c.toNat / 64) % 32 * 64 + (128 + c.toNat % 64) % 64 = c.toNat := by omega
      rw [e, hc]
    · rw [if_neg h2]
      by_cases h3 : c.toNat ≤ 0xFFFF
      · rw [if_pos h3]
        simp only [List.cons_append, List.nil_append, DecodeRune_eq, byte_val,
          List.getD_cons_zero, List.getD_cons_succ, List.length_cons, List.length_nil]
        have e0 : (224 + c.toNat / 4096) % 256 = 224 + c.toNat / 4096 := by omega
        have e1 : (128 + c.toNat / 64 % 64) % 256 = 128 + c.toNat / 64 % 64 := by omega
        have e2 : (128 + c.toNat % 64) % 256 = 128 + c.toNat % 64 := by omega
        rw [e0, e1, e2, if_neg (by omega), first_3 _ (by omega)]
        simp only []
        rw [if_neg (by omega), if_neg (by split_ifs <;> omega), if_neg (by omega),
          if_neg (by omega), if_pos (by omega)]
        have e : (224 + c.toNat / 4096) % 16 * 4096 + (128 + c.toNat / 64 % 64) % 64 * 64
            + (128 + c.toNat % 64) % 64 = c.toNat := by omega
        rw [e, hc]
      · rw [if_neg h3]
        simp only [List.cons_append, List.nil_append, DecodeRune_eq, byte_val,
          List.getD_cons_zero, List.getD_cons_succ, List.length_cons, List.length_nil]
        have e0 : (240 + c.toNat / 262144) % 256 = 240 + c.toNat / 262144 := by omega
        have e1 : (128 + c.toNat / 4096 % 64) % 256 = 128 + c.toNat / 4096 % 64 := by omega
        have e2 : (128 + c.toNat / 64 % 64) % 256 = 128 + c.toNat / 64 % 64 := by omega
        have e3 : (128 + c.toNat % 64) % 256 = 128 + c.toNat % 64 := by omega
        rw [e0, e1, e2, e3, if_neg (by omega), first_4 _ (by omega)]
        simp only []
        rw [if_neg (by omega), if_neg (by split_ifs <;> omega), if_neg (by omega),
          if_neg (by omega), if_neg (by omega), if_neg (by omega)]
        have e : (240 + c.toNat / 262144) % 8 * 262144 + (128 + c.toNat / 4096 % 64) % 64 * 4096
            + (128 + c.toNat / 64 % 64) % 64 * 64 + (128 + c.toNat % 64) % 64 = c.toNat := by
          omega
        rw [e, hc]

end utf8

theorem ofNat_toNat_cases (v : Nat) : (Char.ofNat v).toNat = v ∨ (Char.ofNat v).toNat = 0 := by
  by_cases h : v.isValidChar
  · left
    simp only [Char.ofNat, h, Char.ofNatAux, dite_true]
    rfl
  · right
    simp only [Char.ofNat, h, dite_false]
    rfl

theorem ofNat_toNat_small (v : Nat) (h : v < 128) : (Char.ofNat v).toNat = v := by
  have hv : v.isValidChar := Or.inl (by omega)
  simp only [Char.ofNat, hv, Char.ofNatAux, dite_true]
  rfl

theorem EncodeRune_ne_nil (c : Char) : utf8.EncodeRune c.toNat ≠ [] := by
  rw [utf8.EncodeRune_eq _ (utf8.Char_valid c)]
  split_ifs <;> simp

theorem rangeFrom_skip (pre rest : List Byte) :
    rangeFrom pre.length (pre ++ rest) = rangeFrom 0 rest := by
  induction pre with
  | nil => rfl
  | cons b pre ih => simpa [rangeFrom] using ih

theorem rangeRunes_EncodeRune (c : Char) (rest : List Byte) :
    rangeRunes (utf8.EncodeRune c.toNat ++ rest) = c :: rangeRunes rest := by
  have hd := utf8.DecodeRune_EncodeRune c rest
  cases he : utf8.EncodeRune c.toNat with
  | nil => exact absurd he (EncodeRune_ne_nil c)
  | cons b tl =>
    rw [he, List.cons_append] at hd
    unfold rangeRunes
    rw [List.cons_append, rangeFrom, hd]
    simp only [List.length_cons, Nat.add_sub_cancel]
    rw [rangeFrom_skip]

/-- Ranging over the bytes of a text gives its characters. -/
theorem rangeRunes_flatMap (cs : List Char) :
    rangeRunes (cs.flatMap (fun c => utf8.EncodeRune c.toNat)) = cs := by
  induction cs with
  | nil => rfl
  | cons c cs ih =>
    rw [List.flatMap_cons, rangeRunes_EncodeRune, ih]

theorem rangeRunes_stringBytes (s : String) : rangeRunes (stringBytes s) = s.data :=
  rangeRunes_flatMap s.data

/-- What the table first holds for a leading byte, as far as the size of
the decoded value goes. -/
theorem first_spec (p0 sz lo hi : Nat) (h : utf8.first p0 = some (sz, lo, hi)) :
    0x80 ≤ lo ∧ hi ≤ 0xBF ∧
    ((sz = 2 ∧ 2 ≤ p0 % 32) ∨ (sz = 3 ∧ (1 ≤ p0 % 16 ∨ 0xA0 ≤ lo)) ∨
      (sz = 4 ∧ (1 ≤ p0 % 8 ∨ 0x90 ≤ lo))) := by
  unfold utf8.first at h
  split_ifs at h <;>
    first
    | (simp only [Option.some.injEq, Prod.mk.injEq] at h
       obtain ⟨rfl, rfl, rfl⟩ := h
       omega)

/-- A rune of the ASCII range other than NUL is decoded from the byte of
that value only. -/
theorem DecodeRune_ascii (b : Byte) (rest : List Byte)
    (h0 : 0 < (utf8.DecodeRune (b :: rest)).1.toNat)
    (h : (utf8.DecodeRune (b :: rest)).1.toNat < 128) :
    (utf8.DecodeRune (b :: rest)).1.toNat = b.val := by
  rw [utf8.DecodeRune_eq] at h h0 ⊢
  have hre : utf8.RuneError.toNat = 0xFFFD := by decide
  by_cases hb : b.val < 0x80
  · rw [if_pos hb] at h h0 ⊢
    exact ofNat_toNat_small _ hb
  · rw [if_neg hb] at h h0 ⊢
    exfalso
    cases hf : utf8.first b.val with
    | none =>
      rw [hf] at h
      simp only [hre] at h
      omega
    | some t =>
      obtain ⟨sz, lo, hi⟩ := t
      obtain ⟨hlo, hhi, hsz⟩ := first_spec _ _ _ _ hf
      rw [hf] at h h0
      simp only [] at h h0
      split_ifs at h h0 with c1 c2 c3 c4 c5 c6
      · simp only [hre] at h; omega
      · simp only [hre] at h; omega
      · rcases ofNat_toNat_cases (b.val % 32 * 64 + (rest.getD 0 0).val % 64) with e | e <;>
          rw [e] at h h0 <;> omega
      · simp only [hre] at h; omega
      · rcases ofNat_toNat_cases (b.val % 16 * 4096 + (rest.getD 0 0).val % 64 * 64
          + (rest.getD 1 0).val % 64) with e | e <;> rw [e] at h h0 <;> omega
      · simp only [hre] at h; omega
      · rcases ofNat_toNat_cases (b.val % 8 * 262144 + (rest.getD 0 0).val % 64 * 4096
          + (rest.getD 1 0).val % 64 * 64 + (rest.getD 2 0).val % 64) with e | e <;>
          rw [e] at h h0 <;> omega

theorem mem_rangeFrom (k : Nat) (input : List Byte) (c : Char) (hc : c ∈ rangeFrom k input)
    (h0 : 0 < c.toNat) (h : c.toNat < 128) : ∃ b ∈ input, b.val = c.toNat := by
  induction input generalizing k with
  | nil => simp [rangeFrom] at hc
  | cons b rest ih =>
    cases k with
    | zero =>
      simp only [rangeFrom, List.mem_cons] at hc
      rcases hc with hc | hc
      · subst hc
        exact ⟨b, List.mem_cons_self _ _, (DecodeRune_ascii b rest h0 h).symm⟩
      · obtain ⟨b2, hb2, e⟩ := ih _ hc
        exact ⟨b2, List.mem_cons_of_mem _ hb2, e⟩
    | succ k =>
      simp only [rangeFrom] at hc
      obtain ⟨b2, hb2, e⟩ := ih _ hc
      exact ⟨b2, List.mem_cons_of_mem _ hb2, e⟩

namespace client

/-- A line without quote bytes has no quote rune. -/
theorem rangeRunes_no_quote (input : List Byte) (h : ∀ b ∈ input, b ≠ 34 ∧ b ≠ 39) :
    ∀ c ∈ rangeRunes input, c ≠ dquote ∧ c ≠ squote := by
  intro c hc
  constructor
  · intro e
    subst e
    obtain ⟨b, hb, e⟩ := mem_rangeFrom 0 input dquote hc (by decide) (by decide)
    apply (h b hb).1
    apply Fin.ext
    rw [e]
    rfl
  · intro e
    subst e
    obtain ⟨b, hb, e⟩ := mem_rangeFrom 0 input squote hc (by decide) (by decide)
    apply (h b hb).2
    apply Fin.ext
    rw [e]
    rfl

end client


namespace cipher

theorem byte_xor_cancel (x y : Byte) : (x ^^^ y) ^^^ y = x := by
  apply Fin.ext
  have hx : x.val < 2 ^ 8 := x.isLt
  have hy : y.val < 2 ^ 8 := y.isLt
  have h1 : (x ^^^ y).val = x.val ^^^ y.val := by
    show (x.val ^^^ y.val) % 256 = _
    exact Nat.mod_eq_of_lt (Nat.xor_lt_two_pow hx hy)
  have h2 : ((x ^^^ y) ^^^ y).val = (x ^^^ y).val ^^^ y.val := by
    show ((x ^^^ y).val ^^^ y.val) % 256 = _
    apply Nat.mod_eq_of_lt
    rw [h1]
    exact Nat.xor_lt_two_pow (Nat.xor_lt_two_pow hx hy) hy
  rw [h2, h1, Nat.xor_assoc, Nat.xor_self, Nat.xor_zero]

theorem xorBytes_length (a b : List Byte) : (xorBytes a b).length = min a.length b.length := by
  simp [xorBytes]

theorem xorBytes_cancel (a k : List Byte) (h : a.length ≤ k.length) :
    xorBytes (xorBytes a k) k = a := by
  induction a generalizing k with
  | nil => simp [xorBytes]
  | cons x a ih =>
    cases k with
    | nil => simp at h
    | cons y k =>
      have h2 : a.length ≤ k.length := by simpa using h
      have := ih k h2
      simp only [xorBytes, List.zipWith_cons_cons, List.cons.injEq] at this ⊢
      exact ⟨byte_xor_cancel x y, this⟩

theorem keystream_length (c : Block) (h : ∀ b, (c.Encrypt b).length = 16) (counter : List Byte)
    (n : Nat) : (keystream c counter n).length = 16 * n := by
  induction n generalizing counter with
  | zero => simp [keystream]
  | succ n ih => simp only [keystream, List.length_append, h, ih]; omega

theorem counterCrypt_length (g : GCM) (h : ∀ b, (g.cipher.Encrypt b).length = 16)
    (inp counter : List Byte) : (counterCrypt g inp counter).length = inp.length := by
  simp only [counterCrypt, xorBytes_length, keystream_length _ h]
  omega

theorem counterCrypt_cancel (g : GCM) (h : ∀ b, (g.cipher.Encrypt b).length = 16)
    (inp counter : List Byte) :
    counterCrypt g (counterCrypt g inp counter) counter = inp := by
  have hl := counterCrypt_length g h inp counter
  unfold counterCrypt at hl ⊢
  rw [hl]
  apply xorBytes_cancel
  rw [keystream_length _ h]
  omega

theorem natBlock_length (n : Nat) : (natBlock n).length = 16 := by
  simp [natBlock]

theorem auth_length (g : GCM) (h : ∀ b, (g.cipher.Encrypt b).length = 16)
    (ciphertext additionalData counter : List Byte) :
    (auth g ciphertext additionalData (g.cipher.Encrypt counter)).length = 16 := by
  simp [auth, xorBytes_length, natBlock_length, h]

/-- What Seal appended to dst under a nonce, Open accepts under the same
nonce and turns back into the plaintext. -/
theorem Open_Seal (g : GCM) (h : ∀ b, (g.cipher.Encrypt b).length = 16)
    (ht : g.tagSize = 16) (dst nonce plaintext data sealed : List Byte)
    (hs : g.Seal dst nonce plaintext data = .ok sealed) :
    sealed.take dst.length = dst ∧
    g.Open [] nonce (sealed.drop dst.length) data = .ok plaintext := by
  unfold GCM.Seal at hs
  split_ifs at hs with h1 h2
  simp only [Outcome.ok.injEq] at hs
  subst hs
  have hcl := counterCrypt_length g h plaintext (gcmInc32 (deriveCounter nonce))
  have hal := auth_length g h (counterCrypt g plaintext (gcmInc32 (deriveCounter nonce))) data
    (deriveCounter nonce)
  have e0 : (dst ++ counterCrypt g plaintext (gcmInc32 (deriveCounter nonce)) ++
      auth g (counterCrypt g plaintext (gcmInc32 (deriveCounter nonce))) data
        (g.cipher.Encrypt (deriveCounter nonce))).drop dst.length
      = counterCrypt g plaintext (gcmInc32 (deriveCounter nonce)) ++
        auth g (counterCrypt g plaintext (gcmInc32 (deriveCounter nonce))) data
          (g.cipher.Encrypt (deriveCounter nonce)) := by
    simp
  refine ⟨by simp, ?_⟩
  rw [e0]
  unfold GCM.Open
  rw [if_neg h1, if_neg (by rw [ht]; decide), if_neg (by rw [ht, List.length_append, hal]; omega),
    if_neg (by rw [ht, List.length_append, hal, hcl]; omega)]
  have e1 : (counterCrypt g plaintext (gcmInc32 (deriveCounter nonce)) ++
      auth g (counterCrypt g plaintext (gcmInc32 (deriveCounter nonce))) data
        (g.cipher.Encrypt (deriveCounter nonce))).length - g.tagSize
      = (counterCrypt g plaintext (gcmInc32 (deriveCounter nonce))).length := by
    rw [ht, List.length_append, hal]; omega
  simp only [e1, List.take_left', List.drop_left', List.nil_append]
  rw [if_neg (by
    rw [ht, ← hal, List.take_length]
    simp), counterCrypt_cancel g h]

/-- Open panics only on a nonce of the wrong length or a tag size below the
minimum. -/
theorem Open_no_panic (g : GCM) (ht : g.tagSize = 16) (dst nonce ciphertext data : List Byte)
    (hn : nonce.length = g.nonceSize) (msg : String) :
    g.Open dst nonce ciphertext data ≠ .panic msg := by
  unfold GCM.Open
  rw [if_neg (by simp [hn]), if_neg (by rw [ht]; decide)]
  simp only []
  split_ifs <;> simp

/-- The only error Open returns is errOpen. -/
theorem Open_error (g : GCM) (dst nonce ciphertext data : List Byte) (e : String)
    (h : g.Open dst nonce ciphertext data = .error e) : e = errOpen := by
  unfold GCM.Open at h
  simp only [] at h
  split_ifs at h <;> exact (Outcome.error.inj h).symm

end cipher

/-! ### The crypto envelope -/

theorem be32_length (w : Nat) : (sha256.be32 w).length = 4 := rfl

theorem Sum256_length (data : List Byte) : (sha256.Sum256 data).length = 32 := by
  simp [sha256.Sum256, be32_length]

theorem deriveKey_length (passphrase : String) : (deriveKey passphrase).length = 32 :=
  Sum256_length _

theorem encryptBlock_length (xk : List Nat) (src : List Byte) :
    (aes.encryptBlock xk src).length = 16 := by
  simp [aes.encryptBlock, be32_length]

theorem keyedGCM_block (passphrase : String) (b : List Byte) :
    ((keyedGCM passphrase).cipher.Encrypt b).length = 16 :=
  encryptBlock_length _ _

theorem NewCipher_deriveKey (passphrase : String) :
    aes.NewCipher (deriveKey passphrase) = .ok (keyedGCM passphrase).cipher := by
  simp [aes.NewCipher, deriveKey_length, keyedGCM]

theorem NewGCM_keyed (passphrase : String) :
    cipher.NewGCM (keyedGCM passphrase).cipher = .ok (keyedGCM passphrase) := by
  simp [cipher.NewGCM, keyedGCM, cipher.gcmBlockSize]

/-- Decrypt with the two cipher-setup steps resolved. -/
theorem Decrypt_eq (ciphertext : List Byte) (passphrase : String) :
    Decrypt ciphertext passphrase =
      match base64.DecodeString ciphertext with
      | none => .error .failedToDecodeBase64
      | some decoded =>
        if decoded.length < 12 then .error .ciphertextTooShort
        else
          match (keyedGCM passphrase).Open [] (decoded.take 12) (decoded.drop 12) [] with
          | .panic msg => .panic msg
          | .error _ => .error .failedToDecrypt
          | .ok plaintext => .ok plaintext := by
  unfold Decrypt
  simp only [NewCipher_deriveKey, NewGCM_keyed]
  rfl

/-- Encrypt with the two cipher-setup steps resolved. -/
theorem Encrypt_eq (rnd plaintext : List Byte) (passphrase : String) :
    Encrypt rnd plaintext passphrase =
      if rnd.length < 12 then .error .failedToGenerateNonce
      else
        match (keyedGCM passphrase).Seal (rnd.take 12) (rnd.take 12) plaintext [] with
        | .panic msg => .panic msg
        | .error e => nomatch e
        | .ok ciphertext => .ok (base64.EncodeToString ciphertext) := by
  unfold Encrypt
  simp only [NewCipher_deriveKey, NewGCM_keyed, ioReadFull]
  have hsz : (keyedGCM passphrase).NonceSize = 12 := rfl
  rw [hsz]
  by_cases hr : rnd.length < 12
  · simp only [if_pos hr]
  · simp only [if_neg hr]

/-- What Encrypt returned, Decrypt turns back into the payload. -/
theorem Decrypt_after_Encrypt (rnd plaintext : List Byte) (passphrase : String)
    (envelope : List Byte) (h : Encrypt rnd plaintext passphrase = .ok envelope) :
    Decrypt envelope passphrase = .ok plaintext := by
  rw [Encrypt_eq] at h
  split_ifs at h with hr
  split at h
  · simp at h
  · rename_i e _
    exact e.elim
  · rename_i sealed hs
    simp only [Outcome.ok.injEq] at h
    subst h
    have hn : (rnd.take 12).length = 12 := by simp; omega
    obtain ⟨h1, h2⟩ := cipher.Open_Seal (keyedGCM passphrase) (keyedGCM_block passphrase) rfl
      _ _ _ _ _ hs
    rw [hn] at h1 h2
    have hlen : ¬ sealed.length < 12 := by
      have := congrArg List.length h1
      simp at this
      omega
    rw [Decrypt_eq, base64.DecodeString_EncodeToString]
    simp only [if_neg hlen, h1, h2]

/-! ### The server's handler -/

namespace server

theorem responsesOf_sendResponse (s : ShellServer) (env : Env) (success : Bool)
    (message : String) (data : Option StringMap) :
    responsesOf (sendResponse s env success message data)
      = [{ Success := success, Message := message, Data := data, Timestamp := env.now }] := by
  unfold sendResponse
  simp only [responsesOf]
  split
  · rfl
  · split <;> rfl

theorem execsOf_sendResponse (s : ShellServer) (env : Env) (success : Bool)
    (message : String) (data : Option StringMap) :
    execsOf (sendResponse s env success message data) = [] := by
  unfold sendResponse
  simp only [execsOf]
  split
  · rfl
  · split <;> rfl

theorem publishTopics_sendResponse (s : ShellServer) (env : Env) (success : Bool)
    (message : String) (data : Option StringMap) :
    ∀ t ∈ publishTopics (sendResponse s env success message data),
      t = s.config.TopicPrefix ++ "/response/x9vkff7p4" := by
  unfold sendResponse
  simp only [publishTopics]
  split
  · simp [publishTopics]
  · split <;> simp [publishTopics]

/-- With marshalling and encryption succeeding, sendResponse publishes the
envelope on the response topic. -/
theorem publishedOf_sendResponse (s : ShellServer) (env : Env) (success : Bool)
    (message : String) (data : Option StringMap) (payload encrypted : List Byte)
    (hm : env.marshalResponse
      { Success := success, Message := message, Data := data, Timestamp := env.now }
        = .ok payload)
    (he : Encrypt env.rnd payload s.config.ExecKey = .ok encrypted) :
    publishedOf (sendResponse s env success message data)
      = [(s.config.TopicPrefix ++ "/response/x9vkff7p4", encrypted)] := by
  simp only [sendResponse, hm, he, publishedOf]

/-- Without an envelope, sendResponse publishes nothing. -/
theorem publishedOf_sendResponse_none (s : ShellServer) (env : Env) (success : Bool)
    (message : String) (data : Option StringMap)
    (h : ∀ payload encrypted,
      env.marshalResponse
        { Success := success, Message := message, Data := data, Timestamp := env.now }
          = .ok payload →
      Encrypt env.rnd payload s.config.ExecKey ≠ .ok encrypted) :
    publishedOf (sendResponse s env success message data) = [] := by
  cases hm : env.marshalResponse
      { Success := success, Message := message, Data := data, Timestamp := env.now } with
  | error e => simp only [sendResponse, hm, publishedOf]
  | ok payload =>
    cases he : Encrypt env.rnd payload s.config.ExecKey with
    | ok encrypted => exact absurd he (h payload encrypted hm)
    | error e => simp only [sendResponse, hm, he, publishedOf]
    | panic m => simp only [sendResponse, hm, he, publishedOf]

/-- The run outcome executeCommand works with. -/
theorem executeCommand_cons (s : ShellServer) (env : Env) (name : String) (args : List String) :
    executeCommand s env (name :: args) =
      .exec name args ::
        match (env.combinedOutput name args).2 with
        | some e =>
          sendResponse s env false "Command execution failed"
            (some (StringMap.set [("command", " ".intercalate (name :: args)),
              ("output", (env.combinedOutput name args).1)] "error" e))
        | none =>
          sendResponse s env true "Command executed successfully"
            (some [("command", " ".intercalate (name :: args)),
              ("output", (env.combinedOutput name args).1)]) := by
  rcases h : env.combinedOutput name args with ⟨output, err⟩
  cases err <;> simp [executeCommand, h]

theorem execsOf_executeCommand (s : ShellServer) (env : Env) (name : String)
    (args : List String) : execsOf (executeCommand s env (name :: args)) = [name :: args] := by
  rw [executeCommand_cons]
  simp only [execsOf]
  split <;> simp [execsOf_sendResponse]

theorem responsesOf_executeCommand (s : ShellServer) (env : Env) (name : String)
    (args : List String) :
    ∃ r, responsesOf (executeCommand s env (name :: args)) = [r] := by
  rw [executeCommand_cons]
  simp only [responsesOf]
  split <;> exact ⟨_, responsesOf_sendResponse _ _ _ _ _⟩

/-- Success, message and data of the Response of executeCommand depend on
the outcome of the run only. -/
theorem core_executeCommand (s : ShellServer) (env : Env) (name : String) (args : List String) :
    (responsesOf (executeCommand s env (name :: args))).map Response.core
      = [match (env.combinedOutput name args).2 with
         | some e =>
           (false, "Command execution failed",
             some (StringMap.set [("command", " ".intercalate (name :: args)),
               ("output", (env.combinedOutput name args).1)] "error" e))
         | none =>
           (true, "Command executed successfully",
             some [("command", " ".intercalate (name :: args)),
               ("output", (env.combinedOutput name args).1)])] := by
  rw [executeCommand_cons]
  rcases env.combinedOutput name args with ⟨output, err⟩
  cases err with
  | none =>
    show (responsesOf (sendResponse s env true _ _)).map Response.core = _
    rw [responsesOf_sendResponse]
    rfl
  | some e =>
    show (responsesOf (sendResponse s env false _ _)).map Response.core = _
    rw [responsesOf_sendResponse]
    rfl

/-- The trace of executeCommand, given the outcome of the run: the
subprocess, then sendResponse with the Response the outcome determines. -/
theorem executeCommand_data (s : ShellServer) (env : Env) (name : String) (args : List String)
    (output : String) (err : Option String) (hco : env.combinedOutput name args = (output, err)) :
    ∃ data,
      executeCommand s env (name :: args)
        = .exec name args ::
            sendResponse s env err.isNone
              (if err.isNone then "Command executed successfully"
               else "Command execution failed")
              (some data) ∧
      StringMap.get data "command" = some (" ".intercalate (name :: args)) ∧
      StringMap.get data "output" = some output ∧
      StringMap.get data "error" = err := by
  cases err with
  | none =>
    refine ⟨[("command", " ".intercalate (name :: args)), ("output", output)], ?_, ?_, ?_, ?_⟩
    · rw [executeCommand_cons, hco]
      rfl
    · simp [StringMap.get, List.find?]
    · simp [StringMap.get, List.find?]
    · simp [StringMap.get, List.find?]
  | some e =>
    refine ⟨StringMap.set [("command", " ".intercalate (name :: args)), ("output", output)]
      "error" e, ?_, ?_, ?_, ?_⟩
    · rw [executeCommand_cons, hco]
      rfl
    · simp [StringMap.get, StringMap.set, List.find?, List.filter]
    · simp [StringMap.get, StringMap.set, List.find?, List.filter]
    · simp [StringMap.get, StringMap.set, List.find?, List.filter]

end server

theorem Decrypt_no_panic (envelope : List Byte) (passphrase : String) (msg : String) :
    Decrypt envelope passphrase ≠ .panic msg := by
  rw [Decrypt_eq]
  split
  · simp
  · rename_i d _
    split_ifs with hl
    · simp
    · have hn : (d.take 12).length = (keyedGCM passphrase).nonceSize := by
        show _ = 12
        simp; omega
      have := cipher.Open_no_panic (keyedGCM passphrase) rfl [] (d.take 12) (d.drop 12) [] hn
      split
      · rename_i m hm; exact absurd hm (this m)
      · simp
      · simp

namespace client

/-! ### parseCommand -/

theorem mk_ne_empty {cs : List Char} (h : cs.length > 0) : String.mk cs ≠ "" := by
  intro hc
  have : cs = [] := by
    have := congrArg String.data hc
    simpa using this
  subst this
  simp at h

theorem parseStep_parts (st : ParserState) (c : Char) (h : PartsNonEmpty st.parts) :
    PartsNonEmpty (parseStep st c).parts := by
  unfold parseStep
  split_ifs with h1 h2 h3 h4 h5
  all_goals try exact h
  intro p hp
  simp only [List.mem_append, List.mem_singleton] at hp
  rcases hp with hp | hp
  · exact h p hp
  · subst hp; exact mk_ne_empty h5

theorem foldl_parts (l : List Char) (st : ParserState) (h : PartsNonEmpty st.parts) :
    PartsNonEmpty (l.foldl parseStep st).parts := by
  induction l generalizing st with
  | nil => exact h
  | cons c l ih => exact ih _ (parseStep_parts st c h)

theorem parseFinish_parts (st : ParserState) (h : PartsNonEmpty st.parts) :
    PartsNonEmpty (parseFinish st) := by
  unfold parseFinish
  split_ifs with h1
  · intro p hp
    simp only [List.mem_append, List.mem_singleton] at hp
    rcases hp with hp | hp
    · exact h p hp
    · subst hp; exact mk_ne_empty h1
  · exact h

theorem parseCommand_parts (input : List Byte) : PartsNonEmpty (parseCommand input) :=
  parseFinish_parts _ (foldl_parts _ _ (by intro p hp; simp [parseInit] at hp))

/-- Outside quotes, a run of characters that are neither spaces nor quotes
is appended to the builder. -/
theorem foldl_plain (l : List Char) (ps : List String) (cur : List Char) (qc : Char)
    (h : ∀ c ∈ l, c ≠ ' ' ∧ c ≠ dquote ∧ c ≠ squote) :
    l.foldl parseStep ⟨ps, cur, false, qc⟩ = ⟨ps, cur ++ l, false, qc⟩ := by
  induction l generalizing cur with
  | nil => simp
  | cons c l ih =>
    have hc := h c (List.mem_cons_self _ _)
    have hstep : parseStep ⟨ps, cur, false, qc⟩ c = ⟨ps, cur ++ [c], false, qc⟩ := by
      simp [parseStep, hc.1, hc.2.1, hc.2.2]
    rw [List.foldl_cons, hstep, ih _ (fun d hd => h d (List.mem_cons_of_mem _ hd))]
    simp

/-- Inside a quoted region opened by q, every character other than q is
appended to the builder. -/
theorem foldl_quoted (l : List Char) (ps : List String) (cur : List Char) (q : Char)
    (h : ∀ c ∈ l, c ≠ q) :
    l.foldl parseStep ⟨ps, cur, true, q⟩ = ⟨ps, cur ++ l, true, q⟩ := by
  induction l generalizing cur with
  | nil => simp
  | cons c l ih =>
    have hc := h c (List.mem_cons_self _ _)
    have hstep : parseStep ⟨ps, cur, true, q⟩ c = ⟨ps, cur ++ [c], true, q⟩ := by
      unfold parseStep
      split_ifs <;> simp_all
    rw [List.foldl_cons, hstep, ih _ (fun d hd => h d (List.mem_cons_of_mem _ hd))]
    simp

theorem splitOnP_no_sep (p : Char → Bool) (l : List Char) (h : ∀ c ∈ l, p c = false) :
    l.splitOnP p = [l] := by
  induction l with
  | nil => simp
  | cons c l ih =>
    rw [List.splitOnP_cons, h c (List.mem_cons_self _ _),
      ih (fun d hd => h d (List.mem_cons_of_mem _ hd))]
    simp

theorem splitOnP_run (p : Char → Bool) (cur rest : List Char) (c : Char)
    (h : ∀ d ∈ cur, p d = false) (hc : p c = true) :
    (cur ++ c :: rest).splitOnP p = cur :: rest.splitOnP p := by
  induction cur with
  | nil => simp [List.splitOnP_cons, hc]
  | cons d cur ih =>
    rw [List.cons_append, List.splitOnP_cons, h d (List.mem_cons_self _ _),
      ih (fun e he => h e (List.mem_cons_of_mem _ he))]
    simp

theorem foldl_fields (l : List Char) (ps : List String) (cur : List Char) (qc : Char)
    (h : ∀ c ∈ l, c ≠ dquote ∧ c ≠ squote)
    (hcur : ∀ c ∈ cur, (decide (c = ' ')) = false) :
    parseFinish (l.foldl parseStep ⟨ps, cur, false, qc⟩)
      = ps ++ (fieldsBy (fun c => decide (c = ' ')) (cur ++ l)).map String.mk := by
  induction l generalizing ps cur with
  | nil =>
    simp only [List.foldl_nil, List.append_nil, fieldsBy]
    rw [splitOnP_no_sep _ _ hcur]
    unfold parseFinish
    cases cur with
    | nil => simp
    | cons a as => simp
  | cons c l ih =>
    have hc := h c (List.mem_cons_self _ _)
    have hl : ∀ d ∈ l, d ≠ dquote ∧ d ≠ squote := fun d hd => h d (List.mem_cons_of_mem _ hd)
    rw [List.foldl_cons]
    by_cases hsp : c = ' '
    · subst hsp
      have hsplit := splitOnP_run (fun c => decide (c = ' ')) cur l ' ' hcur (by simp)
      cases cur with
      | nil =>
        have hstep : parseStep ⟨ps, [], false, qc⟩ ' ' = ⟨ps, [], false, qc⟩ := by
          simp [parseStep, hc.1, hc.2]
        rw [hstep, ih ps [] hl (by simp)]
        simp only [fieldsBy, hsplit, List.nil_append]
        simp
      | cons a as =>
        have hstep : parseStep ⟨ps, a :: as, false, qc⟩ ' '
            = ⟨ps ++ [String.mk (a :: as)], [], false, qc⟩ := by
          simp [parseStep, hc.1, hc.2]
        rw [hstep, ih _ [] hl (by simp)]
        simp only [fieldsBy, hsplit, List.nil_append]
        simp
    · have hstep : parseStep ⟨ps, cur, false, qc⟩ c = ⟨ps, cur ++ [c], false, qc⟩ := by
        simp [parseStep, hc.1, hc.2, hsp]
      rw [hstep, ih ps (cur ++ [c]) hl (by
        intro d hd
        simp only [List.mem_append, List.mem_singleton] at hd
        rcases hd with hd | hd
        · exact hcur d hd
        · subst hd; simpa using hsp)]
      simp

theorem parseStep_open (ps : List String) (cur : List Char) (qc q : Char)
    (hq : q = dquote ∨ q = squote) :
    parseStep ⟨ps, cur, false, qc⟩ q = ⟨ps, cur, true, q⟩ := by
  simp [parseStep, hq]

theorem parseStep_close (ps : List String) (cur : List Char) (q : Char)
    (hq : q = dquote ∨ q = squote) :
    parseStep ⟨ps, cur, true, q⟩ q = ⟨ps, cur, false, Char.ofNat 0⟩ := by
  simp [parseStep, hq]

theorem data_ne_nil_of_ne_empty {s : String} (h : s ≠ "") : s.data ≠ [] := by
  intro hd
  apply h
  cases s
  simp_all

end client

/-! ## The claims -/

/-- C1. Round trip of the crypto envelope: whenever Encrypt, on any bytes
from the random source, any payload (the empty one included) and any
passphrase, returns an envelope, Decrypt of that envelope under the same
passphrase succeeds and returns exactly the payload. -/
theorem Decrypt_Encrypt (rnd plaintext : List Byte) (passphrase : String)
    (envelope : List Byte) (h : Encrypt rnd plaintext passphrase = .ok envelope) :
    Decrypt envelope passphrase = .ok plaintext := by
  rw [Encrypt_eq] at h
  split_ifs at h with hr
  split at h
  · simp at h
  · rename_i e _
    exact e.elim
  · rename_i sealed hs
    simp only [Outcome.ok.injEq] at h
    subst h
    have hn : (rnd.take 12).length = 12 := by simp; omega
    obtain ⟨h1, h2⟩ := cipher.Open_Seal (keyedGCM passphrase) (keyedGCM_block passphrase) rfl
      _ _ _ _ _ hs
    rw [hn] at h1 h2
    have hlen : ¬ sealed.length < 12 := by
      have := congrArg List.length h1
      simp at this
      omega
    rw [Decrypt_eq, base64.DecodeString_EncodeToString]
    simp only [if_neg hlen, h1, h2]

set_option maxRecDepth 1000000 in
/-- C1 at a concrete input: the payload "hi" under the passphrase "secret"
with the nonce 1..12. -/
theorem Decrypt_Encrypt_witness :
    Encrypt sampleNonce (stringBytes "hi") "secret" = .ok sampleEnvelope ∧
    Decrypt sampleEnvelope "secret" = .ok (stringBytes "hi") :=
  have h : Encrypt sampleNonce (stringBytes "hi") "secret" = .ok sampleEnvelope := by decide
  ⟨h, Decrypt_Encrypt sampleNonce (stringBytes "hi") "secret" sampleEnvelope h⟩

/-- C2. Failure conditions of Decrypt: the derived key has 32 bytes, so the
two cipher-setup steps succeed for every passphrase; Decrypt never panics;
and it returns an error (and with it no plaintext) exactly when the input
is not valid standard base64, or the decoded buffer is shorter than the
12-byte nonce, or GCM Open of decoded[12:] under the nonce decoded[:12] and
the key SHA-256(passphrase) reports an authentication failure. -/
theorem Decrypt_failure (envelope : List Byte) (passphrase : String) :
    (deriveKey passphrase).length = 32 ∧
    aes.NewCipher (deriveKey passphrase) = .ok (keyedGCM passphrase).cipher ∧
    cipher.NewGCM (keyedGCM passphrase).cipher = .ok (keyedGCM passphrase) ∧
    (∀ msg, Decrypt envelope passphrase ≠ .panic msg) ∧
    (∀ e, Decrypt envelope passphrase = .error e ↔
      (e = .failedToDecodeBase64 ∧ base64.DecodeString envelope = none) ∨
      (e = .ciphertextTooShort ∧
        ∃ d, base64.DecodeString envelope = some d ∧ d.length < 12) ∨
      (e = .failedToDecrypt ∧
        ∃ d, base64.DecodeString envelope = some d ∧ 12 ≤ d.length ∧
          (keyedGCM passphrase).Open [] (d.take 12) (d.drop 12) [] = .error cipher.errOpen)) := by
  refine ⟨deriveKey_length _, NewCipher_deriveKey _, NewGCM_keyed _, Decrypt_no_panic _ _, ?_⟩
  intro e
  rw [Decrypt_eq]
  cases hd : base64.DecodeString envelope with
  | none =>
    constructor
    · intro h
      exact Or.inl ⟨(Outcome.error.inj h).symm, rfl⟩
    · rintro (⟨h, _⟩ | ⟨_, d, h, _⟩ | ⟨_, d, h, _⟩)
      · rw [h]
      · exact absurd h (by simp)
      · exact absurd h (by simp)
  | some d =>
    by_cases hl : d.length < 12
    · simp only [if_pos hl]
      constructor
      · intro h
        exact Or.inr (Or.inl ⟨(Outcome.error.inj h).symm, d, rfl, hl⟩)
      · rintro (⟨_, h⟩ | ⟨h, _⟩ | ⟨_, d2, h, h2, _⟩)
        · exact absurd h (by simp)
        · rw [h]
        · obtain rfl := Option.some.inj h
          omega
    · simp only [if_neg hl]
      constructor
      · intro h
        refine Or.inr (Or.inr ?_)
        cases ho : (keyedGCM passphrase).Open [] (d.take 12) (d.drop 12) [] with
        | ok v => rw [ho] at h; exact absurd h (by simp)
        | panic m => rw [ho] at h; exact absurd h (by simp)
        | error m =>
          rw [ho] at h
          have hm := cipher.Open_error _ _ _ _ _ _ ho
          subst hm
          exact ⟨(Outcome.error.inj h).symm, d, rfl, by omega, ho⟩
      · rintro (⟨_, h⟩ | ⟨_, d2, h, h2⟩ | ⟨h, d2, h1, _, h3⟩)
        · exact absurd h (by simp)
        · obtain rfl := Option.some.inj h
          omega
        · obtain rfl := Option.some.inj h1
          rw [h3, h]

set_option maxRecDepth 1000000 in
/-- C2 at concrete inputs: text that is not base64, a buffer of three
bytes, and the sample envelope with its last character changed fail in the
three ways. -/
theorem Decrypt_failure_witness :
    Decrypt (stringBytes "ls -l") "secret" = .error .failedToDecodeBase64 ∧
    Decrypt (stringBytes "AAAA") "secret" = .error .ciphertextTooShort ∧
    Decrypt sampleTampered "secret" = .error .failedToDecrypt :=
  ⟨((Decrypt_failure (stringBytes "ls -l") "secret").2.2.2.2 _).mpr
      (Or.inl ⟨rfl, by decide⟩),
   ((Decrypt_failure (stringBytes "AAAA") "secret").2.2.2.2 _).mpr
      (Or.inr (Or.inl ⟨rfl, [0, 0, 0], by decide, by decide⟩)),
   ((Decrypt_failure sampleTampered "secret").2.2.2.2 _).mpr
      (Or.inr (Or.inr ⟨rfl, _, base64.DecodeString_EncodeToString _, by decide, by decide⟩))⟩

namespace server

/-- C3. Server handling of one inbound message: on every path the handler
builds exactly one Response (one call of sendResponse). If Decrypt fails it
is success=false, "Decryption failed", no data; else if the decrypted bytes
do not parse as a Command it is success=false, "Invalid command format", no
data; else if the parsed command list is empty (a nil slice, as a missing or
null field leaves it, included) it is success=false, "No command specified",
no data; in these three cases no subprocess is run. Otherwise the handler is
executeCommand on the parsed argv, which runs exactly that argv. -/
theorem messageHandler_one_response (s : ShellServer) (env : Env) (payload : List Byte) :
    (∃ r, responsesOf (messageHandler s env payload) = [r]) ∧
    (∀ e, Decrypt payload s.config.ExecKey = .error e →
      responsesOf (messageHandler s env payload)
        = [{ Success := false, Message := "Decryption failed", Data := none,
             Timestamp := env.now }] ∧
      execsOf (messageHandler s env payload) = []) ∧
    (∀ d e, Decrypt payload s.config.ExecKey = .ok d → env.unmarshalCommand d = .error e →
      responsesOf (messageHandler s env payload)
        = [{ Success := false, Message := "Invalid command format", Data := none,
             Timestamp := env.now }] ∧
      execsOf (messageHandler s env payload) = []) ∧
    (∀ d cmd, Decrypt payload s.config.ExecKey = .ok d → env.unmarshalCommand d = .ok cmd →
      cmd.Command = [] →
      responsesOf (messageHandler s env payload)
        = [{ Success := false, Message := "No command specified", Data := none,
             Timestamp := env.now }] ∧
      execsOf (messageHandler s env payload) = []) ∧
    (∀ d cmd, Decrypt payload s.config.ExecKey = .ok d → env.unmarshalCommand d = .ok cmd →
      cmd.Command ≠ [] →
      messageHandler s env payload = executeCommand s env cmd.Command ∧
      execsOf (messageHandler s env payload) = [cmd.Command]) := by
  refine ⟨?_, ?_, ?_, ?_, ?_⟩
  · cases hd : Decrypt payload s.config.ExecKey with
    | panic m => exact absurd hd (Decrypt_no_panic _ _ _)
    | error e =>
      simp only [messageHandler, hd]
      exact ⟨_, responsesOf_sendResponse _ _ _ _ _⟩
    | ok d =>
      cases hu : env.unmarshalCommand d with
      | error e =>
        simp only [messageHandler, hd, hu]
        exact ⟨_, responsesOf_sendResponse _ _ _ _ _⟩
      | ok cmd =>
        simp only [messageHandler, hd, hu]
        split_ifs with hc
        · exact ⟨_, responsesOf_sendResponse _ _ _ _ _⟩
        · cases hcc : cmd.Command with
          | nil => simp [hcc] at hc
          | cons name args => exact responsesOf_executeCommand _ _ _ _
  · intro e he
    simp only [messageHandler, he, responsesOf_sendResponse, execsOf_sendResponse, and_self]
  · intro d e hd hu
    simp only [messageHandler, hd, hu, responsesOf_sendResponse, execsOf_sendResponse, and_self]
  · intro d cmd hd hu hc
    simp only [messageHandler, hd, hu, hc, List.length_nil, if_true, responsesOf_sendResponse,
      execsOf_sendResponse, and_self]
  · intro d cmd hd hu hc
    have hlen : ¬ cmd.Command.length = 0 := by
      intro h; exact hc (List.length_eq_zero.mp h)
    have h1 : messageHandler s env payload = executeCommand s env cmd.Command := by
      simp only [messageHandler, hd, hu, if_neg hlen]
    refine ⟨h1, ?_⟩
    rw [h1]
    cases hcc : cmd.Command with
    | nil => exact absurd hcc hc
    | cons name args => exact execsOf_executeCommand _ _ _ _

/-- C3 at a concrete input: a payload that is not base64 text is answered
with the one Response "Decryption failed" and nothing is run. -/
theorem messageHandler_one_response_witness :
    responsesOf (messageHandler sampleServer sampleServerEnv (stringBytes "ls -l"))
      = [{ Success := false, Message := "Decryption failed", Data := none, Timestamp := 7 }] ∧
    execsOf (messageHandler sampleServer sampleServerEnv (stringBytes "ls -l")) = [] :=
  (messageHandler_one_response sampleServer sampleServerEnv (stringBytes "ls -l")).2.1
    .failedToDecodeBase64 (by decide)

/-- C4. Response sent by the execution engine: for every non-empty argv
and every outcome (output, error or none) of the run, executeCommand runs
that argv once and then calls sendResponse once, with one Response: its data
holds command = the argv joined by single spaces and output = the captured
output; with no error the Response is success=true, "Command executed
successfully" and data has no error key; with an error it is success=false,
"Command execution failed" and data.error is the error text. What goes out
is this Response: when marshalling and encryption succeed, exactly one
message is published, on the response topic, its payload is
Encrypt(Marshal(Response)) and decrypts under the passphrase to the
marshalled Response; when they do not, nothing is published. -/
theorem executeCommand_response (s : ShellServer) (env : Env) (argv : List String)
    (h : argv ≠ []) :
    execsOf (executeCommand s env argv) = [argv] ∧
    ∃ data resp,
      resp = { Success := (env.combinedOutput (argv.headD "") argv.tail).2.isNone,
               Message :=
                 if (env.combinedOutput (argv.headD "") argv.tail).2.isNone then
                   "Command executed successfully"
                 else "Command execution failed",
               Data := some data,
               Timestamp := env.now } ∧
      responsesOf (executeCommand s env argv) = [resp] ∧
      data.get "command" = some (" ".intercalate argv) ∧
      data.get "output" = some (env.combinedOutput (argv.headD "") argv.tail).1 ∧
      data.get "error" = (env.combinedOutput (argv.headD "") argv.tail).2 ∧
      (∀ payload encrypted, env.marshalResponse resp = .ok payload →
        Encrypt env.rnd payload s.config.ExecKey = .ok encrypted →
        publishedOf (executeCommand s env argv)
          = [(s.config.TopicPrefix ++ "/response/x9vkff7p4", encrypted)] ∧
        Decrypt encrypted s.config.ExecKey = .ok payload) ∧
      ((∀ payload encrypted, env.marshalResponse resp = .ok payload →
          Encrypt env.rnd payload s.config.ExecKey ≠ .ok encrypted) →
        publishedOf (executeCommand s env argv) = []) := by
  cases argv with
  | nil => exact absurd rfl h
  | cons name args =>
    refine ⟨execsOf_executeCommand _ _ _ _, ?_⟩
    obtain ⟨data, htrace, h1, h2, h3⟩ := executeCommand_data s env name args _ _ rfl
    refine ⟨data, _, rfl, ?_, h1, h2, h3, ?_, ?_⟩
    · rw [htrace]
      show responsesOf (sendResponse s env _ _ _) = _
      rw [responsesOf_sendResponse]
      rfl
    · intro payload encrypted hm he
      refine ⟨?_, Decrypt_after_Encrypt _ _ _ _ he⟩
      rw [htrace]
      show publishedOf (sendResponse s env _ _ _) = _
      exact publishedOf_sendResponse s env _ _ _ payload encrypted hm he
    · intro hno
      rw [htrace]
      show publishedOf (sendResponse s env _ _ _) = _
      exact publishedOf_sendResponse_none s env _ _ _ hno

set_option maxRecDepth 1000000 in
/-- C4 at a concrete input: the command ls -l in the sample world; the
envelope published is the encryption of the marshalled Response. -/
theorem executeCommand_response_witness :
    execsOf (executeCommand sampleServer sampleServerEnv ["ls", "-l"]) = [["ls", "-l"]] ∧
    (∃ data,
      responsesOf (executeCommand sampleServer sampleServerEnv ["ls", "-l"])
        = [{ Success := true, Message := "Command executed successfully", Data := some data,
             Timestamp := 7 }] ∧
      data.get "command" = some "ls -l" ∧
      data.get "output" = some "main.go\n" ∧
      data.get "error" = none) ∧
    publishedOf (executeCommand sampleServer sampleServerEnv ["ls", "-l"])
      = [("mqtt-shell/response/x9vkff7p4", sampleEmptyObjectEnvelope)] :=
  have h := executeCommand_response sampleServer sampleServerEnv ["ls", "-l"] (by decide)
  match h with
  | ⟨hx, data, resp, hr, hresp, h1, h2, h3, hpub, _⟩ =>
    ⟨hx, ⟨data, hr ▸ hresp, h1, h2, h3⟩,
      (hpub (stringBytes "\x7b\x7d") sampleEmptyObjectEnvelope rfl (by decide)).1⟩

end server

namespace client

/-- C5. Client delivery path: with the response channel of capacity 10 not
full, messageHandler appends exactly the parsed Response to the queue when
Decrypt succeeds and the decrypted bytes parse as a Response; when
decryption fails or parsing fails it returns with the client, and so the
queue, unchanged. -/
theorem messageHandler_delivers {Value : Type} (env : Env Value) (c : ShellClient Value)
    (payload : List Byte) (hcap : c.responses.cap = 10) (hfree : c.responses.buf.length < 10) :
    (∀ d resp, env.Decrypt payload c.config.ExecKey = .ok d →
      env.unmarshalResponse d = .ok resp →
      messageHandler env c payload
        = .returned { config := c.config,
                      responses := { cap := 10, buf := c.responses.buf ++ [resp] } }) ∧
    (∀ e, env.Decrypt payload c.config.ExecKey = .error e →
      messageHandler env c payload = .returned c) ∧
    (∀ d e, env.Decrypt payload c.config.ExecKey = .ok d →
      env.unmarshalResponse d = .error e →
      messageHandler env c payload = .returned c) := by
  refine ⟨?_, ?_, ?_⟩
  · intro d resp hd hu
    simp only [messageHandler, hd, hu, hcap, if_pos hfree]
  · intro e he
    simp only [messageHandler, he]
  · intro d e hd hu
    simp only [messageHandler, hd, hu]

set_option maxRecDepth 1000000 in
/-- C5 at a concrete input: the sample response envelope reaches the empty
queue of a new client. -/
theorem messageHandler_delivers_witness :
    messageHandler sampleClientEnv sampleClient sampleResponseEnvelope
      = .returned { config := sampleClient.config,
                    responses := { cap := 10,
                                   buf := [{ Success := true, Message := "ok", Data := none,
                                             Timestamp := 0 }] } } :=
  (messageHandler_delivers sampleClientEnv sampleClient sampleResponseEnvelope rfl
    (by decide)).1 sampleResponseText _ (by decide) (by simp [sampleClientEnv])

end client

theorem topic_ne (p : String) : p ++ "/x9vkff7p4" ≠ p ++ "/response/x9vkff7p4" := by
  intro h
  have := congrArg String.length h
  simp only [String.length_append] at this
  have h1 : "/x9vkff7p4".length = 10 := by decide
  have h2 : "/response/x9vkff7p4".length = 19 := by decide
  omega

theorem publishTopics_SendCommand {Value : Type} (env : client.Env Value)
    (c : client.ShellClient Value) (cmdParts : List String) :
    ∀ t ∈ publishTopics (client.SendCommand env c cmdParts).1,
      t = c.config.TopicPrefix ++ "/x9vkff7p4" := by
  unfold client.SendCommand
  simp only []
  split
  · simp [publishTopics]
  · split <;> simp [publishTopics]

/-- C6. Topic scheme: with the prefix p configured on both sides, the server
subscribes to p/x9vkff7p4 and the client publishes commands to that topic
and no other; the client subscribes to p/response/x9vkff7p4 and the server
publishes responses to that topic and no other; whenever marshalling and
encryption succeed the publish is made; and the command topic differs from
the response topic. -/
theorem topic_scheme {Value : Type} (p : String) (s : server.ShellServer)
    (c : client.ShellClient Value) (hs : s.config.TopicPrefix = p)
    (hc : c.config.TopicPrefix = p) (senv : server.Env) (cenv : client.Env Value) :
    subscribeTopics (server.onConnect s) = [p ++ "/x9vkff7p4"] ∧
    subscribeTopics (client.onConnect c) = [p ++ "/response/x9vkff7p4"] ∧
    (∀ cmdParts, ∀ t ∈ publishTopics (client.SendCommand cenv c cmdParts).1,
      t = p ++ "/x9vkff7p4") ∧
    (∀ cmdParts payload encrypted,
      cenv.marshalCommand (client.commandOf cmdParts) = .ok payload →
      cenv.Encrypt payload c.config.ExecKey = .ok encrypted →
      publishTopics (client.SendCommand cenv c cmdParts).1 = [p ++ "/x9vkff7p4"]) ∧
    (∀ success message data,
      ∀ t ∈ publishTopics (server.sendResponse s senv success message data),
        t = p ++ "/response/x9vkff7p4") ∧
    (∀ success message data payload encrypted,
      senv.marshalResponse
        { Success := success, Message := message, Data := data, Timestamp := senv.now }
          = .ok payload →
      Encrypt senv.rnd payload s.config.ExecKey = .ok encrypted →
      publishTopics (server.sendResponse s senv success message data)
        = [p ++ "/response/x9vkff7p4"]) ∧
    p ++ "/x9vkff7p4" ≠ p ++ "/response/x9vkff7p4" := by
  subst hs
  refine ⟨rfl, by rw [← hc]; rfl, ?_, ?_, ?_, ?_, topic_ne _⟩
  · intro cmdParts t ht
    rw [← hc]
    exact publishTopics_SendCommand cenv c cmdParts t ht
  · intro cmdParts payload encrypted hm he
    simp only [client.SendCommand, hm, he, publishTopics, hc]
  · intro success message data t ht
    exact server.publishTopics_sendResponse s senv success message data t ht
  · intro success message data payload encrypted hm he
    simp only [server.sendResponse, hm, he, publishTopics]

set_option maxRecDepth 1000000 in
/-- C6 at a concrete input: the sample server and client under the prefix
mqtt-shell; the response to a message is published on
mqtt-shell/response/x9vkff7p4. -/
theorem topic_scheme_witness :
    subscribeTopics (server.onConnect sampleServer) = ["mqtt-shell/x9vkff7p4"] ∧
    publishTopics (client.SendCommand sampleClientEnv sampleClient ["ls"]).1
      = ["mqtt-shell/x9vkff7p4"] ∧
    subscribeTopics (client.onConnect sampleClient) = ["mqtt-shell/response/x9vkff7p4"] ∧
    "mqtt-shell/x9vkff7p4" ≠ "mqtt-shell/response/x9vkff7p4" :=
  have h := topic_scheme "mqtt-shell" sampleServer sampleClient rfl rfl sampleServerEnv
    sampleClientEnv
  ⟨h.1, h.2.2.2.1 ["ls"] sampleCommandText sampleCommandEnvelope rfl (by decide), h.2.1,
    h.2.2.2.2.2.2⟩

namespace server

/-- C10. The action field is not read: two payloads whose decrypted texts
parse to Commands with the same command list, whatever their actions, are
handled by the branch the command list selects; in worlds where the
subprocess behaves alike, the handler runs the same argv for both and builds
Responses with the same success, message and data. -/
theorem messageHandler_ignores_action (s : ShellServer) (env1 env2 : Env)
    (payload1 payload2 d1 d2 : List Byte) (cmd1 cmd2 : Command)
    (h1 : Decrypt payload1 s.config.ExecKey = .ok d1)
    (h2 : Decrypt payload2 s.config.ExecKey = .ok d2)
    (hu1 : env1.unmarshalCommand d1 = .ok cmd1)
    (hu2 : env2.unmarshalCommand d2 = .ok cmd2)
    (hcmd : cmd1.Command = cmd2.Command)
    (hrun : env1.combinedOutput = env2.combinedOutput) :
    messageHandler s env1 payload1
      = (if cmd1.Command.length = 0 then sendResponse s env1 false "No command specified" none
         else executeCommand s env1 cmd1.Command) ∧
    messageHandler s env2 payload2
      = (if cmd1.Command.length = 0 then sendResponse s env2 false "No command specified" none
         else executeCommand s env2 cmd1.Command) ∧
    execsOf (messageHandler s env1 payload1) = execsOf (messageHandler s env2 payload2) ∧
    (responsesOf (messageHandler s env1 payload1)).map Response.core
      = (responsesOf (messageHandler s env2 payload2)).map Response.core := by
  have e1 : messageHandler s env1 payload1
      = (if cmd1.Command.length = 0 then sendResponse s env1 false "No command specified" none
         else executeCommand s env1 cmd1.Command) := by
    simp only [messageHandler, h1, hu1]
  have e2 : messageHandler s env2 payload2
      = (if cmd1.Command.length = 0 then sendResponse s env2 false "No command specified" none
         else executeCommand s env2 cmd1.Command) := by
    simp only [messageHandler, h2, hu2, hcmd]
  refine ⟨e1, e2, ?_, ?_⟩
  · rw [e1, e2]
    split_ifs with hl
    · rw [execsOf_sendResponse, execsOf_sendResponse]
    · cases hc : cmd1.Command with
      | nil => simp [hc] at hl
      | cons name args => rw [execsOf_executeCommand, execsOf_executeCommand]
  · rw [e1, e2]
    split_ifs with hl
    · rw [responsesOf_sendResponse, responsesOf_sendResponse]
      rfl
    · cases hc : cmd1.Command with
      | nil => simp [hc] at hl
      | cons name args =>
        rw [core_executeCommand, core_executeCommand, hrun]

end server

namespace server

set_option maxRecDepth 1000000 in
/-- C10 at a concrete input: the sample command with the action "exec" and
the same command without an action field both run ls and are answered
alike. -/
theorem messageHandler_ignores_action_witness :
    execsOf (messageHandler sampleServer sampleServerEnv sampleCommandEnvelope)
      = execsOf (messageHandler sampleServer sampleServerEnv sampleCommandEnvelopeNoAction) ∧
    (responsesOf (messageHandler sampleServer sampleServerEnv sampleCommandEnvelope)).map
        Response.core
      = (responsesOf
          (messageHandler sampleServer sampleServerEnv sampleCommandEnvelopeNoAction)).map
        Response.core :=
  (messageHandler_ignores_action sampleServer sampleServerEnv sampleServerEnv
    sampleCommandEnvelope sampleCommandEnvelopeNoAction sampleCommandText
    sampleCommandTextNoAction { Action := "exec", Command := ["ls"] }
    { Action := "", Command := ["ls"] } (by decide) (by decide) (by rfl) (by rfl) rfl rfl).2.2

end server

namespace client

/-- C7. Command invariant on the client: every element of parseCommand is
a non-empty string; the interactive loop calls SendCommand only with the
non-empty result of parseCommand on the trimmed line; so the Command built
from it has a non-empty argv whose element 0 is a non-empty string. -/
theorem interactive_command_invariant (input : List Byte) :
    (∀ p ∈ parseCommand input, p ≠ "") ∧
    (∀ read cmdParts, interactiveStep read = .send cmdParts →
      (∃ line, read = .ok line ∧ cmdParts = parseCommand (TrimSpace line)) ∧
      (∀ p ∈ cmdParts, p ≠ "") ∧
      ∃ exe rest, (commandOf cmdParts).Command = exe :: rest ∧ exe ≠ "") := by
  refine ⟨parseCommand_parts input, ?_⟩
  intro read cmdParts h
  cases read with
  | error e => simp [interactiveStep] at h
  | ok line =>
    simp only [interactiveStep] at h
    split_ifs at h with h1 h2 h3 h4 h5
    simp only [ShellAction.send.injEq] at h
    subst h
    refine ⟨⟨line, rfl, rfl⟩, parseCommand_parts _, ?_⟩
    cases hp : parseCommand (TrimSpace line) with
    | nil => simp [hp] at h5
    | cons exe rest =>
      refine ⟨exe, rest, rfl, ?_⟩
      have := parseCommand_parts (TrimSpace line)
      rw [hp] at this
      exact this exe (List.mem_cons_self _ _)

/-- C7 at a concrete input: the line "  ls -l" sends the argv ls, -l. -/
theorem interactive_command_invariant_witness :
    interactiveStep (.ok (stringBytes "  ls -l\n")) = .send ["ls", "-l"] ∧
    ∃ exe rest, (commandOf ["ls", "-l"]).Command = exe :: rest ∧ exe ≠ "" :=
  ⟨by decide,
    ((interactive_command_invariant []).2 (.ok (stringBytes "  ls -l\n")) ["ls", "-l"]
      (by decide)).2.2⟩

set_option maxRecDepth 100000 in
/-- C8 as stated fails, in two ways. The line a, tab, b contains no quote
character; its fields split on whitespace are a and b, but parseCommand
returns the one argument holding the tab. The line 63 61 66 E9 20 78
contains no quote character either; split on the space its fields are
63 61 66 E9 and 78, but the first argument parseCommand returns has the
bytes 63 61 66 EF BF BD: the byte E9, not well-formed UTF-8, has become
U+FFFD. -/
theorem parseCommand_tab_counterexample :
    ((∀ b ∈ ([97, 9, 98] : List Byte), b ≠ 34 ∧ b ≠ 39) ∧
      fieldsBy isSpace (rangeRunes [97, 9, 98]) = [['a'], ['b']] ∧
      parseCommand [97, 9, 98] = [String.mk ['a', Char.ofNat 9, 'b']] ∧
      parseCommand [97, 9, 98] ≠ (fieldsBy isSpace (rangeRunes [97, 9, 98])).map String.mk) ∧
    ((∀ b ∈ ([0x63, 0x61, 0x66, 0xE9, 0x20, 0x78] : List Byte), b ≠ 34 ∧ b ≠ 39) ∧
      fieldsBy (fun b : Byte => decide (b = 0x20)) [0x63, 0x61, 0x66, 0xE9, 0x20, 0x78]
        = [[0x63, 0x61, 0x66, 0xE9], [0x78]] ∧
      (parseCommand [0x63, 0x61, 0x66, 0xE9, 0x20, 0x78]).map stringBytes
        = [[0x63, 0x61, 0x66, 0xEF, 0xBF, 0xBD], [0x78]] ∧
      (parseCommand [0x63, 0x61, 0x66, 0xE9, 0x20, 0x78]).map stringBytes
        ≠ fieldsBy (fun b : Byte => decide (b = 0x20)) [0x63, 0x61, 0x66, 0xE9, 0x20, 0x78]) := by
  decide

/-- C8, amended. Splitting on spaces: for every input line, any bytes, that
contains no single-quote or double-quote character, parseCommand is the
list, in order, of the maximal runs of characters other than the space
U+0020, the characters of the line being the runes the range loop reads (a
byte that is not part of a well-formed UTF-8 sequence is read as U+FFFD).
For a line that is well-formed UTF-8 text this is the text split on spaces
with empty fields discarded. -/
theorem parseCommand_splits_on_space (input : List Byte)
    (h : ∀ b ∈ input, b ≠ 34 ∧ b ≠ 39) :
    parseCommand input
      = (fieldsBy (fun c => decide (c = ' ')) (rangeRunes input)).map String.mk ∧
    (∀ text : String, input = stringBytes text →
      parseCommand input = (fieldsBy (fun c => decide (c = ' ')) text.data).map String.mk) := by
  have key : parseCommand input
      = (fieldsBy (fun c => decide (c = ' ')) (rangeRunes input)).map String.mk := by
    have := foldl_fields (rangeRunes input) [] [] (Char.ofNat 0)
      (rangeRunes_no_quote input h) (by simp)
    simpa [parseCommand, parseInit] using this
  refine ⟨key, ?_⟩
  intro text ht
  rw [key, ht, rangeRunes_stringBytes]

set_option maxRecDepth 100000 in
/-- C8, amended, at concrete inputs: a line of text, and the line
63 61 66 E9 20 78 that is not well-formed UTF-8. -/
theorem parseCommand_splits_on_space_witness :
    parseCommand (stringBytes " ls  -l /tmp ") = ["ls", "-l", "/tmp"] ∧
    parseCommand [0x63, 0x61, 0x66, 0xE9, 0x20, 0x78]
      = [String.mk ['c', 'a', 'f', Char.ofNat 0xFFFD], "x"] :=
  ⟨((parseCommand_splits_on_space (stringBytes " ls  -l /tmp ") (by decide)).2
      " ls  -l /tmp " rfl).trans (by decide),
    (parseCommand_splits_on_space [0x63, 0x61, 0x66, 0xE9, 0x20, 0x78] (by decide)).1.trans
      (by decide)⟩

set_option maxRecDepth 100000 in
/-- C9 as stated fails: with the double quote as q, u and v empty and s
the bytes 63 61 66 E9, which hold no quote, parseCommand of q s q returns
one argument with the bytes 63 61 66 EF BF BD, not s: the byte E9, not
well-formed UTF-8, is not kept verbatim but written as U+FFFD. -/
theorem parseCommand_quoted_counterexample :
    (∀ b ∈ ([0x63, 0x61, 0x66, 0xE9] : List Byte), b ≠ 34) ∧
    ([] ++ [0x63, 0x61, 0x66, 0xE9] ++ [] : List Byte) ≠ [] ∧
    (parseCommand ([] ++ [34] ++ [0x63, 0x61, 0x66, 0xE9] ++ [34] ++ [])).map stringBytes
      = [[0x63, 0x61, 0x66, 0xEF, 0xBF, 0xBD]] ∧
    (parseCommand ([] ++ [34] ++ [0x63, 0x61, 0x66, 0xE9] ++ [34] ++ [])).map stringBytes
      ≠ [[] ++ [0x63, 0x61, 0x66, 0xE9] ++ []] := by
  decide

/-- C9, amended. Quote grouping on well-formed text: for a quote character
q, a text s without q, and texts u and v without spaces and quote
characters, if u ++ s ++ v is not empty then parseCommand of the bytes of
u, q, s, q, v is the single argument u ++ s ++ v: the delimiting quotes are
removed and everything between them, spaces, backslashes and the other
quote character included, is kept. -/
theorem parseCommand_quoted (q : Char) (u s v : String)
    (hq : q = dquote ∨ q = squote)
    (hs : ∀ c ∈ s.data, c ≠ q)
    (hu : ∀ c ∈ u.data, c ≠ ' ' ∧ c ≠ dquote ∧ c ≠ squote)
    (hv : ∀ c ∈ v.data, c ≠ ' ' ∧ c ≠ dquote ∧ c ≠ squote)
    (hne : u ++ s ++ v ≠ "") :
    parseCommand (stringBytes (u ++ String.singleton q ++ s ++ String.singleton q ++ v))
      = [u ++ s ++ v] := by
  have hd := data_ne_nil_of_ne_empty hne
  simp only [String.data_append] at hd
  have hlen : (u.data ++ s.data ++ v.data).length > 0 := List.length_pos.mpr hd
  have hdata : (u ++ String.singleton q ++ s ++ String.singleton q ++ v).data
      = u.data ++ (q :: (s.data ++ (q :: v.data))) := by
    simp [String.data_append, String.singleton]
  unfold parseCommand
  rw [rangeRunes_stringBytes, hdata, List.foldl_append, parseInit, foldl_plain _ _ _ _ hu,
    List.foldl_cons, parseStep_open _ _ _ _ hq, List.foldl_append, foldl_quoted _ _ _ _ hs,
    List.foldl_cons, parseStep_close _ _ _ hq, foldl_plain _ _ _ _ hv]
  simp only [List.nil_append] at hlen ⊢
  unfold parseFinish
  simp only [if_pos hlen, List.nil_append, List.cons.injEq, and_true]
  apply String.ext
  simp [String.data_append]

/-- C9, amended, at a concrete input: a double-quoted region holding a
space, a backslash and a single quote. -/
theorem parseCommand_quoted_witness :
    parseCommand (stringBytes (String.mk ['-', 'x', Char.ofNat 34, 'a', ' ', Char.ofNat 92,
        Char.ofNat 39, Char.ofNat 34, 'y']))
      = [String.mk ['-', 'x', 'a', ' ', Char.ofNat 92, Char.ofNat 39, 'y']] :=
  parseCommand_quoted dquote "-x" (String.mk ['a', ' ', Char.ofNat 92, Char.ofNat 39]) "y"
    (Or.inl rfl) (by decide) (by decide) (by decide) (by decide)

end client

